import Mathlib

/-!
A verification development for the VeloGraph ingestion-and-indexing pipeline.

The Python sources are shallowly embedded: pure functions become Lean
functions over `String`/`ℤ`/`ℚ`, the SQLAlchemy session becomes an explicit
`DB` state record threaded through the populator operations, fallible code
returns `Option`/`Except`.  Each definition carries a comment naming the
source function it embeds.
-/

namespace VeloGraph

/-! ## Python primitives -/

/-- Python `round` on an exact rational: round-half-to-even (banker's rounding),
the semantics of CPython `round(float)` used in
`base_populator.build_geometry_payload` and `trek/extractor._normalize_specs`.
With `f = ⌊q⌋`, the remainder `q - f` is compared against `1/2` by
cross-multiplication: `q - f < 1/2  ↔  2*(q.num - f*q.den) < q.den`. -/
def pyRound (q : ℚ) : ℤ :=
  let f := q.num.fdiv (q.den : ℤ)
  let t := 2 * (q.num - f * (q.den : ℤ))
  if t < (q.den : ℤ) then f
  else if (q.den : ℤ) < t then f + 1
  else if f % 2 = 0 then f else f + 1

/-- `q * 10` computed on the numerator (the Batteries `Rat.mul` is
`irreducible`, this form evaluates in the kernel). -/
def ratScale10 (q : ℚ) : ℚ := mkRat (q.num * 10) q.den

theorem ratScale10_eq (q : ℚ) : ratScale10 q = q * 10 := by
  unfold ratScale10
  rw [Rat.mkRat_eq_div]
  push_cast
  rw [mul_comm (q.num : ℚ) 10, mul_div_assoc, Rat.num_div_den, mul_comm]

/-! ### Python string primitives

Python `str` operations are embedded over the character list `String.data`,
so that every operation is structurally recursive and evaluates inside the
kernel.  Unicode-only subtleties (case folding beyond ASCII, exotic
whitespace) do not arise in the strings this development evaluates. -/

/-- Lexicographic comparison of code-point sequences: Python `s <= t`. -/
def charsLe : List Char → List Char → Bool
  | [], _ => true
  | _ :: _, [] => false
  | a :: as, b :: bs => if a = b then charsLe as bs else decide (a < b)

theorem charsLe_refl : ∀ l : List Char, charsLe l l = true
  | [] => rfl
  | a :: as => by simp [charsLe, charsLe_refl as]

theorem charsLe_trans :
    ∀ {x y z : List Char}, charsLe x y = true → charsLe y z = true →
      charsLe x z = true := by
  intro x
  induction x with
  | nil => intro y z _ _; rfl
  | cons a as ih =>
    intro y z hxy hyz
    cases y with
    | nil => simp [charsLe] at hxy
    | cons b bs =>
      cases z with
      | nil => simp [charsLe] at hyz
      | cons c cs =>
        by_cases hab : a = b
        · subst hab
          by_cases hbc : a = c
          · subst hbc
            simp only [charsLe, if_pos rfl] at *
            exact ih hxy hyz
          · simp only [charsLe, if_pos rfl, if_neg hbc] at *
            exact hyz
        · by_cases hbc : b = c
          · subst hbc
            simp only [charsLe, if_neg hab] at *
            exact hxy
          · simp only [charsLe, if_neg hab, if_neg hbc, decide_eq_true_iff] at hxy hyz
            have hac : a < c := lt_trans hxy hyz
            have hane : a ≠ c := ne_of_lt hac
            simp only [charsLe, if_neg hane, decide_eq_true_iff]
            exact hac

theorem charsLe_antisymm :
    ∀ {x y : List Char}, charsLe x y = true → charsLe y x = true → x = y := by
  intro x
  induction x with
  | nil =>
    intro y _ hyx
    cases y with
    | nil => rfl
    | cons b bs => simp [charsLe] at hyx
  | cons a as ih =>
    intro y hxy hyx
    cases y with
    | nil => simp [charsLe] at hxy
    | cons b bs =>
      by_cases hab : a = b
      · subst hab
        simp only [charsLe, if_pos rfl] at hxy hyx
        rw [ih hxy hyx]
      · have hba : b ≠ a := fun h => hab h.symm
        simp only [charsLe, if_neg hab, if_neg hba, decide_eq_true_iff] at hxy hyx
        exact absurd hyx (lt_asymm hxy)

theorem charsLe_total :
    ∀ x y : List Char, charsLe x y = true ∨ charsLe y x = true := by
  intro x
  induction x with
  | nil => intro y; left; rfl
  | cons a as ih =>
    intro y
    cases y with
    | nil => right; rfl
    | cons b bs =>
      by_cases hab : a = b
      · subst hab
        simpa only [charsLe, if_pos rfl] using ih bs
      · have hba : b ≠ a := fun h => hab h.symm
        rcases lt_or_gt_of_ne hab with h | h
        · left; simp [charsLe, if_neg hab, h]
        · right; simp [charsLe, if_neg hba, h]

/-- Python string order as a relation on `String`. -/
def pyLe (s t : String) : Prop := charsLe s.data t.data = true

instance : DecidableRel pyLe := fun s t => by unfold pyLe; infer_instance

instance : IsRefl String pyLe := ⟨fun s => charsLe_refl s.data⟩

instance : IsTrans String pyLe := ⟨fun _ _ _ h h' => charsLe_trans h h'⟩

instance : IsAntisymm String pyLe :=
  ⟨fun s t h h' => by
    cases s; cases t
    exact congrArg String.mk (charsLe_antisymm h h')⟩

instance : IsTotal String pyLe := ⟨fun s t => charsLe_total s.data t.data⟩

/-- Python `str.strip()`. -/
def pyStrip (s : String) : String :=
  String.mk (((s.data.dropWhile Char.isWhitespace).reverse.dropWhile
    Char.isWhitespace).reverse)

/-- Python `str.split()` (no separator): whitespace-delimited words, with the
word under construction accumulated in reverse. -/
def pyWordsGo (cur : List Char) : List Char → List (List Char)
  | [] => if cur = [] then [] else [cur.reverse]
  | c :: rest =>
    if c.isWhitespace then
      if cur = [] then pyWordsGo [] rest else cur.reverse :: pyWordsGo [] rest
    else pyWordsGo (c :: cur) rest

/-- Python `sep.join(words)` for a one-character separator. -/
def joinSep (sep : Char) : List (List Char) → List Char
  | [] => []
  | [w] => w
  | w :: ws => w ++ sep :: joinSep sep ws

/-- Python `s.replace(a, b)` for one-character pattern and replacement. -/
def pyReplaceChar (a b : Char) (s : String) : String :=
  String.mk (s.data.map (fun c => if c = a then b else c))

/-- Python `str.upper()` (ASCII range). -/
def pyUpper (s : String) : String := String.mk (s.data.map Char.toUpper)

/-- Python `str.lower()` (ASCII range). -/
def pyLower (s : String) : String := String.mk (s.data.map Char.toLower)

/-- Python `sorted(list(set(l)))` for a list of strings: the ascending,
duplicate-free enumeration of the elements of `l`. -/
def pySortedSet (l : List String) : List String :=
  List.insertionSort pyLe l.dedup

theorem pySortedSet_sorted (l : List String) :
    (pySortedSet l).Sorted pyLe :=
  List.sorted_insertionSort _ _

theorem pySortedSet_nodup (l : List String) : (pySortedSet l).Nodup :=
  ((List.perm_insertionSort _ _).nodup_iff).mpr l.nodup_dedup

theorem mem_pySortedSet {c : String} {l : List String} :
    c ∈ pySortedSet l ↔ c ∈ l := by
  unfold pySortedSet
  rw [(List.perm_insertionSort _ _).mem_iff, List.mem_dedup]

theorem pySortedSet_eq_of_mem_iff {l₁ l₂ : List String}
    (h : ∀ c, c ∈ l₁ ↔ c ∈ l₂) : pySortedSet l₁ = pySortedSet l₂ := by
  apply List.eq_of_perm_of_sorted _ (pySortedSet_sorted l₁) (pySortedSet_sorted l₂)
  rw [List.perm_ext_iff_of_nodup (pySortedSet_nodup l₁) (pySortedSet_nodup l₂)]
  intro a
  rw [mem_pySortedSet, mem_pySortedSet]
  exact h a

theorem pySortedSet_eq_self {l : List String} (hs : l.Sorted pyLe)
    (hn : l.Nodup) : pySortedSet l = l := by
  apply List.eq_of_perm_of_sorted _ (pySortedSet_sorted l) hs
  rw [List.perm_ext_iff_of_nodup (pySortedSet_nodup l) hn]
  intro a
  exact mem_pySortedSet

/-! ## `backend/utils/helpers.py` : `extract_number`

`extract_number` accepts ints/floats unchanged and otherwise searches the
string for the first match of the regex `[-+]?\d+(?:[.,]\d+)?`, reading `,`
as a decimal point; no match raises `ValueError` (modelled as `none`). -/

/-- Value of a list of decimal digit characters. -/
def digitsVal (ds : List Char) : ℕ :=
  ds.foldl (fun n c => n * 10 + (c.toNat - 48)) 0

/-- Parse the regex tail starting at a digit: `\d+(?:[.,]\d+)?`, yielding the
exact decimal value `i + f/10^k` as `mkRat (i*10^k + f) (10^k)`. -/
def parseUnsigned (l : List Char) : ℚ :=
  let ds := l.takeWhile Char.isDigit
  let rest := l.dropWhile Char.isDigit
  match rest with
  | p :: rest2 =>
    if (p = '.' ∨ p = ',') ∧ (rest2.headD ' ').isDigit then
      let fs := rest2.takeWhile Char.isDigit
      mkRat ((digitsVal ds * 10 ^ fs.length + digitsVal fs : ℕ) : ℤ) (10 ^ fs.length)
    else mkRat (digitsVal ds : ℤ) 1
  | [] => mkRat (digitsVal ds : ℤ) 1

/-- Try to match `[-+]?\d+(?:[.,]\d+)?` anchored at the start of `l`. -/
def matchNumberAt (l : List Char) : Option ℚ :=
  match l with
  | [] => none
  | c :: rest =>
    if c = '-' then
      if (rest.headD ' ').isDigit then some (-(parseUnsigned rest)) else none
    else if c = '+' then
      if (rest.headD ' ').isDigit then some (parseUnsigned rest) else none
    else if c.isDigit then some (parseUnsigned (c :: rest))
    else none

/-- `re.search`: leftmost match of the number regex. -/
def findNumber : List Char → Option ℚ
  | [] => none
  | c :: rest =>
    match matchNumberAt (c :: rest) with
    | some q => some q
    | none => findNumber rest

/-! ## Extractor values

A cell of the geometry table (`dict[str, list[float | int | str | None]]`). -/

inductive SpecValue where
  | num (q : ℚ)
  | str (s : String)
  | null
deriving DecidableEq, Repr

/-- `helpers.extract_number`: numbers pass through, strings are searched for
the first numeric token, anything else raises (`none`). -/
def extract_number : SpecValue → Option ℚ
  | .num q => some q
  | .str s => findNumber s.data
  | .null => none

/-! ## `scripts/trek/extractor.py` : `TrekBikeExtractor._normalize_specs` -/

/-- Keys of `TrekBikeExtractor.GEO_MAP`. -/
def trekGeoKeys : List String :=
  ["stack", "reach", "TT", "ST", "HT", "CS", "HA", "SA", "bb_drop", "WB"]

/-- The length keys singled out in `_normalize_specs` (angles `HA`/`SA` are
not in this list and are left untouched). -/
def trekLengthKeys : List String :=
  ["stack", "reach", "TT", "ST", "HT", "CS", "bb_drop", "WB"]

/-- Per-value body of `_normalize_specs`: a numeric value below 150 is taken
to be centimetres and becomes `round(v * 10)`; otherwise `round(v)`;
non-numeric values pass through. -/
def normalizeLengthValue (v : SpecValue) : SpecValue :=
  match v with
  | .num q => if q < 150 then .num (mkRat (pyRound (ratScale10 q)) 1)
              else .num (mkRat (pyRound q) 1)
  | v => v

/-- Per-entry body of the `_normalize_specs` loop: keys outside `GEO_MAP` are
dropped, length keys have every value unit-normalized, other (angle) keys are
copied unchanged. -/
def normalizeSpecsEntry (e : String × List SpecValue) :
    Option (String × List SpecValue) :=
  if e.1 ∉ trekGeoKeys then none
  else if e.1 ∈ trekLengthKeys then some (e.1, e.2.map normalizeLengthValue)
  else some e

/-- `TrekBikeExtractor._normalize_specs` over the spec table, represented as
an association list in dict insertion order. -/
def normalize_specs (specs : List (String × List SpecValue)) :
    List (String × List SpecValue) :=
  specs.filterMap normalizeSpecsEntry

/-! ## `backend/core/models.py` : entity rows

One structure per ORM table, with the columns the pipeline reads or writes.
Primary keys are drawn from a single fresh-id supply (`DB.nextId`), an
abstraction of the per-table autoincrement sequences. -/

structure FamilyRow where
  id : ℕ
  brand_name : String
  family_name : String
  category : String
deriving DecidableEq, Repr

structure DefinitionRow where
  id : ℕ
  family_id : ℕ
  name : String
  material : Option String
  year_start : Option ℤ
  year_end : Option ℤ
deriving DecidableEq, Repr

/-- The dict built by `build_geometry_payload` from `SPEC_KEYS_MAP` (the map
used by both the Kross and the Trek populator); these are exactly the
geometry columns set on a freshly created `GeometrySpecORM`. -/
structure GeometryPayload where
  stack_mm : ℤ
  reach_mm : ℤ
  top_tube_effective_mm : ℤ
  seat_tube_length_mm : ℤ
  head_tube_length_mm : ℤ
  chainstay_length_mm : ℤ
  head_tube_angle : ℚ
  seat_tube_angle : ℚ
  bb_drop_mm : ℤ
  wheelbase_mm : ℤ
deriving DecidableEq, Repr

structure SpecRow where
  id : ℕ
  definition_id : ℕ
  size_label : String
  payload : GeometryPayload
deriving DecidableEq, Repr

structure BuildKitRow where
  id : ℕ
  name : String
  groupset : Option String
  wheelset : Option String
  cockpit : Option String
  tires : Option String
deriving DecidableEq, Repr

structure ProductRow where
  id : ℕ
  sku : String
  colors : List String
  geometry_spec_id : ℕ
  build_kit_id : ℕ
  source_url : Option String
deriving DecidableEq, Repr

/-- The relational state visible to one populator session. -/
structure DB where
  families : List FamilyRow
  defRows : List DefinitionRow
  specs : List SpecRow
  buildKits : List BuildKitRow
  products : List ProductRow
  nextId : ℕ
deriving DecidableEq, Repr

def emptyDB : DB := ⟨[], [], [], [], [], 0⟩

/-! ## `backend/scripts/base/base_populator.py` -/

/-- `normalize_label`: `" ".join(str(label).strip().split())` — collapse all
whitespace runs to single spaces and strip the ends. -/
def normalize_label (label : String) : String :=
  String.mk (joinSep ' ' (pyWordsGo [] label.data))

/-- `build_geometry_payload`: `values[idx] if idx < len(values) else None`
for the `src_key` column of the spec table. -/
def specValueAt (specs : List (String × List SpecValue)) (key : String)
    (idx : ℕ) : SpecValue :=
  let values := (specs.lookup key).getD []
  (values.get? idx).getD .null

/-- One iteration of the `build_geometry_payload` loop: a missing (`None`)
value raises, otherwise the value goes through `extract_number` (which may
itself raise). -/
def geomField (specs : List (String × List SpecValue)) (idx : ℕ)
    (key : String) : Option ℚ :=
  match specValueAt specs key idx with
  | .null => none
  | v => extract_number v

/-- `build_geometry_payload(specs, idx, SPEC_KEYS_MAP)`: every mapped key must
yield a number; angle keys are kept as floats, all others are `round`ed.
Any raised `ValueError` is `none` (callers catch it per size). -/
def build_geometry_payload (specs : List (String × List SpecValue))
    (idx : ℕ) : Option GeometryPayload := do
  let stack ← geomField specs idx "stack"
  let reach ← geomField specs idx "reach"
  let tt ← geomField specs idx "TT"
  let st ← geomField specs idx "ST"
  let ht ← geomField specs idx "HT"
  let cs ← geomField specs idx "CS"
  let ha ← geomField specs idx "HA"
  let sa ← geomField specs idx "SA"
  let bb ← geomField specs idx "bb_drop"
  let wb ← geomField specs idx "WB"
  pure {
    stack_mm := pyRound stack
    reach_mm := pyRound reach
    top_tube_effective_mm := pyRound tt
    seat_tube_length_mm := pyRound st
    head_tube_length_mm := pyRound ht
    chainstay_length_mm := pyRound cs
    head_tube_angle := ha
    seat_tube_angle := sa
    bb_drop_mm := pyRound bb
    wheelbase_mm := pyRound wb }

/-- The `select(BikeFamilyORM).where(...)` lookup in `get_or_create_family`. -/
def find_family (db : DB) (brand family_name : String) : Option FamilyRow :=
  db.families.find? (fun f => f.brand_name = brand ∧ f.family_name = family_name)

/-- `get_or_create_family`. -/
def get_or_create_family (db : DB) (brand family_name category : String) :
    FamilyRow × DB :=
  match find_family db brand family_name with
  | some f => (f, db)
  | none =>
    let f : FamilyRow := ⟨db.nextId, brand, family_name, category⟩
    (f, { db with families := db.families ++ [f], nextId := db.nextId + 1 })

/-- The lookup in `get_or_create_definition`. -/
def find_definition (db : DB) (family_id : ℕ) (name : String)
    (material : Option String) : Option DefinitionRow :=
  db.defRows.find?
    (fun d => d.family_id = family_id ∧ d.name = name ∧ d.material = material)

/-- `get_or_create_definition` (a fresh definition gets
`year_start = year_end = year`). -/
def get_or_create_definition (db : DB) (family_id : ℕ) (name : String)
    (material : Option String) (year : Option ℤ) : DefinitionRow × DB :=
  match find_definition db family_id name material with
  | some d => (d, db)
  | none =>
    let d : DefinitionRow := ⟨db.nextId, family_id, name, material, year, year⟩
    (d, { db with defRows := db.defRows ++ [d], nextId := db.nextId + 1 })

/-- Input dict of `get_or_create_build_kit` (`data.get(...)` fields). -/
structure BuildKitData where
  name : Option String
  groupset : Option String
  wheelset : Option String
  cockpit : Option String
  tires : Option String
deriving DecidableEq, Repr

/-- `data.get("name") or "Standard Build"` (`None` and `""` are both falsy). -/
def buildKitName (d : BuildKitData) : String :=
  match d.name with
  | some n => if n = "" then "Standard Build" else n
  | none => "Standard Build"

/-- The lookup in `get_or_create_build_kit` (all five attributes). -/
def find_build_kit (db : DB) (name : String)
    (groupset wheelset cockpit tires : Option String) : Option BuildKitRow :=
  db.buildKits.find? (fun b =>
    b.name = name ∧ b.groupset = groupset ∧ b.wheelset = wheelset ∧
    b.cockpit = cockpit ∧ b.tires = tires)

/-- `get_or_create_build_kit`. -/
def get_or_create_build_kit (db : DB) (data : BuildKitData) :
    BuildKitRow × DB :=
  let name := buildKitName data
  match find_build_kit db name data.groupset data.wheelset data.cockpit data.tires with
  | some b => (b, db)
  | none =>
    let b : BuildKitRow :=
      ⟨db.nextId, name, data.groupset, data.wheelset, data.cockpit, data.tires⟩
    (b, { db with buildKits := db.buildKits ++ [b], nextId := db.nextId + 1 })

/-- The lookup in `get_or_create_geometry_spec` (on the normalized label). -/
def find_geometry_spec (db : DB) (definition_id : ℕ) (norm_label : String) :
    Option SpecRow :=
  db.specs.find? (fun s => s.definition_id = definition_id ∧ s.size_label = norm_label)

/-- `get_or_create_geometry_spec`: when a spec already exists under
`(definition_id, normalized label)` it is returned untouched — the incoming
payload is dropped (first-write-wins); otherwise a new row stores `payload`
verbatim. -/
def get_or_create_geometry_spec (db : DB) (definition_id : ℕ) (label : String)
    (payload : GeometryPayload) : SpecRow × DB :=
  let norm_label := normalize_label label
  match find_geometry_spec db definition_id norm_label with
  | some s => (s, db)
  | none =>
    let s : SpecRow := ⟨db.nextId, definition_id, norm_label, payload⟩
    (s, { db with specs := db.specs ++ [s], nextId := db.nextId + 1 })

/-- Replace the first list element satisfying `p` by its image under `f`
(the in-place ORM mutation of the row returned by `.find?`). -/
def updateFirst (p : α → Bool) (f : α → α) : List α → List α
  | [] => []
  | x :: xs => if p x then f x :: xs else x :: updateFirst p f xs

/-- The product lookup in `add_bike_product` (unique key
`(geometry_spec_id, build_kit_id)`). -/
def find_product (db : DB) (spec_id bk_id : ℕ) : Option ProductRow :=
  db.products.find? (fun p => p.geometry_spec_id = spec_id ∧ p.build_kit_id = bk_id)

/-- The `while f"{sku}-{suffix}" in added_skus: suffix += 1` search.  The
fuel is `added.length + 1`, enough for the loop to find a free suffix; the
`fuel = 0` fallback is unreachable. -/
def skuSuffixSearch (base : String) (added : List String) :
    ℕ → ℕ → String
  | 0, n => base ++ "-" ++ toString n
  | fuel + 1, n =>
    let cand := base ++ "-" ++ toString n
    if cand ∈ added then skuSuffixSearch base added fuel (n + 1) else cand

/-- SKU collision handling in `add_bike_product`: append `-1`, `-2`, … until
the SKU is not in `added_skus`. -/
def resolveSku (base : String) (added : List String) : String :=
  if base ∈ added then skuSuffixSearch base added (added.length + 1) 1 else base

/-- `add_bike_product`: an existing product under `(spec_id, bk_id)` has its
colors replaced by the sorted union with the incoming ones and is returned;
otherwise a new product is inserted with deduplicated sorted colors and its
final SKU is recorded in `added_skus`.  Returns
`(returned row, new DB, new added_skus)`. -/
def add_bike_product (db : DB) (sku : String) (colors : List String)
    (spec_id bk_id : ℕ) (source_url : Option String) (added : List String) :
    ProductRow × DB × List String :=
  match find_product db spec_id bk_id with
  | some existing =>
    let newColors := pySortedSet (existing.colors ++ colors)
    let products :=
      updateFirst (fun p => p.geometry_spec_id = spec_id ∧ p.build_kit_id = bk_id)
        (fun p => { p with colors := newColors }) db.products
    ({ existing with colors := newColors }, { db with products := products }, added)
  | none =>
    let final_sku := resolveSku sku added
    let p : ProductRow :=
      ⟨db.nextId, final_sku, pySortedSet colors, spec_id, bk_id, source_url⟩
    (p, { db with products := db.products ++ [p], nextId := db.nextId + 1 },
      added ++ [final_sku])

/-! ## `backend/core/utils.py` : `get_simple_types`

`CATEGORY_PATTERNS` (from `backend/core/constants.py`) are alternations of
literal substrings matched case-insensitively; modelled as lowercase-substring
containment.  (`Char.toLower` folds ASCII only; the non-ASCII pattern letters
are already lowercase in the source.) -/

def charsStartWith : List Char → List Char → Bool
  | [], _ => true
  | _ :: _, [] => false
  | a :: as, b :: bs => a = b && charsStartWith as bs

def occursIn (needle : List Char) : List Char → Bool
  | [] => needle.isEmpty
  | c :: rest => charsStartWith needle (c :: rest) || occursIn needle rest

/-- `pattern.search(s)` with `re.IGNORECASE` for a pattern that is an
alternation of literals. -/
def patternSearch (alts : List String) (s : String) : Bool :=
  alts.any (fun a => occursIn a.data (pyLower s).data)

/-- `CATEGORY_PATTERNS`, in dict insertion order, with the enum values of
`BikeCategory`. -/
def categoryPatterns : List (String × List String) :=
  [("gravel", ["gravel"]),
   ("mtb", ["mtb", "górsk", "fuel", "supercaliber", "session", "caliber"]),
   ("trekking", ["trekking", "mahon", "suvea", "zing", "elan", "nhoma"]),
   ("cross", ["cross", "hybryd"]),
   ("road", ["szos", "road", "domane", "madone", "emonda", "checkpoint"]),
   ("city", ["miejsk", "city", "town", "mieście", "cruiser", "loft", "bali",
             "shibori", "ghostrider", "zouma"]),
   ("kids", ["dzieci", "kids", "junior", "precaliber", "kickster", "wahoo"]),
   ("touring", ["touring", "wypraw", "turyst"]),
   ("women", ["damsk", "women"])]

/-- `get_simple_types`: the sorted set of category values some pattern of
which matches some input string; `["other"]` when nothing matches or the
input is empty. -/
def get_simple_types (categories : List String) : List String :=
  if categories = [] then ["other"]
  else
    let results := (categoryPatterns.filter
      (fun e => categories.any (fun c => patternSearch e.2 c))).map Prod.fst
    if results = [] then ["other"]
    else List.insertionSort pyLe results

/-! ## `backend/scripts/kross/kross_populator.py` : `populate_from_json_data`

A `CanonicalBikeRecord` as consumed by the Kross populator: the fields of the
extracted JSON that `populate_from_json_data` reads. -/

structure CanonicalRecord where
  model : String
  material : Option String
  categories : List String
  model_year : Option ℤ
  colors : List String
  source_url : Option String
  build_kit : BuildKitData
  sizes : List String
  specs : List (String × List SpecValue)
deriving DecidableEq, Repr

/-- `meta.get("model", "").strip()`. -/
def recModel (r : CanonicalRecord) : String := pyStrip r.model

/-- `get_simple_types(categories)[0] if categories else "other"`. -/
def recCategory (r : CanonicalRecord) : String :=
  if r.categories = [] then "other"
  else (get_simple_types r.categories).headD "other"

/-- `f"{model_name} {material or ''}".strip()`. -/
def recDefName (r : CanonicalRecord) : String :=
  pyStrip (recModel r ++ " " ++ r.material.getD "")

/-- The color pipeline: `[str(c.get("color")).strip() for c in colors_data
if c.get("color")]` followed by `[c for c in colors if c]` at the
`add_bike_product` call. -/
def recColors (r : CanonicalRecord) : List String :=
  ((r.colors.filter (fun c => c ≠ "")).map pyStrip).filter (fun c => c ≠ "")

/-- `str(model_year or "")` (`None` and `0` are falsy). -/
def recYearStr (r : CanonicalRecord) : String :=
  match r.model_year with
  | some y => if y = 0 then "" else toString y
  | none => ""

/-- The SKU assembly:
`"-".join(p.replace(" ", "-") for p in sku_parts if p).upper()` over
`[brand, model_name, str(model_year or ""), build_kit.name, norm_label]`. -/
def mkSku (model_name yearStr bkName norm : String) : String :=
  pyUpper (String.mk (joinSep '-'
    (((["Kross", model_name, yearStr, bkName, norm].filter (fun p => p ≠ "")).map
      (fun p => (pyReplaceChar ' ' '-' p).data)))))

/-- Body of the per-size loop of `populate_from_json_data`; a raised
`ValueError` from `build_geometry_payload` is caught and the size skipped. -/
def sizeStep (specs : List (String × List SpecValue)) (colors : List String)
    (defId bkId : ℕ) (bkName model_name yearStr : String)
    (src : Option String) (st : DB × List String) (e : ℕ × String) :
    DB × List String :=
  match build_geometry_payload specs e.1 with
  | none => st
  | some payload =>
    let norm := normalize_label e.2
    let sd := get_or_create_geometry_spec st.1 defId norm payload
    let sku := mkSku model_name yearStr bkName norm
    let res := add_bike_product sd.2 sku colors sd.1.id bkId src st.2
    (res.2.1, res.2.2)

/-- `populate_from_json_data` for one canonical record, threading the session
state `(DB, added_skus)`. -/
def processRecord (st : DB × List String) (r : CanonicalRecord) :
    DB × List String :=
  let fd := get_or_create_family st.1 "Kross" (recModel r) (recCategory r)
  let dd := get_or_create_definition fd.2 fd.1.id (recDefName r) r.material r.model_year
  let bd := get_or_create_build_kit dd.2 r.build_kit
  r.sizes.enum.foldl
    (sizeStep r.specs (recColors r) dd.1.id bd.1.id bd.1.name (recModel r)
      (recYearStr r) r.source_url)
    (bd.2, st.2)

/-- One Populator run over a set of canonical records
(`populate_directory` with a fresh `added_skus` set; commits do not change
the session-visible state when no record fails). -/
def runPopulate (db : DB) (rs : List CanonicalRecord) : DB :=
  (rs.foldl processRecord (db, [])).1

/-! ## `backend/core/models.py` : `GeometryData` (pydantic validation) -/

/-- The input of the `GeometryData` pydantic model. -/
structure GeometryDataInput where
  stack : ℤ
  reach : ℤ
  top_tube_effective_length : ℤ
  seat_tube_length : ℤ
  head_tube_length : ℤ
  chainstay_length : ℤ
  head_tube_angle : ℚ
  seat_tube_angle : ℚ
  bb_drop : ℤ
  wheelbase : ℤ
deriving DecidableEq, Repr

/-- pydantic `PositiveInt`. -/
def positiveInt (n : ℤ) : Bool := 0 < n

/-- pydantic `Field(ge=lo, le=hi)` on a float field. -/
def floatGeLe (lo hi q : ℚ) : Bool := lo ≤ q ∧ q ≤ hi

/-- `GeometryData(**data)` succeeds iff every field validator passes:
the six length fields and `bb_drop`/`wheelbase` are `PositiveInt`,
`head_tube_angle` has `ge=60.0, le=75.0`, `seat_tube_angle` has
`ge=70.0, le=80.0`. -/
def geometryDataValidates (g : GeometryDataInput) : Bool :=
  positiveInt g.stack && positiveInt g.reach &&
  positiveInt g.top_tube_effective_length && positiveInt g.seat_tube_length &&
  positiveInt g.head_tube_length && positiveInt g.chainstay_length &&
  floatGeLe 60 75 g.head_tube_angle && floatGeLe 70 80 g.seat_tube_angle &&
  positiveInt g.bb_drop && positiveInt g.wheelbase

/-- The invariant claimed by the spec for geometry rows
(`head_angle_deg ∈ [60,80]`, `seat_angle_deg ∈ [60,85]`, lengths > 0),
restated over a persisted payload.  This definition follows the spec's words,
for comparison with what the code enforces. -/
def claimedGeometryInvariant (p : GeometryPayload) : Prop :=
  60 ≤ p.head_tube_angle ∧ p.head_tube_angle ≤ 80 ∧
  60 ≤ p.seat_tube_angle ∧ p.seat_tube_angle ≤ 85 ∧
  0 < p.stack_mm ∧ 0 < p.reach_mm ∧ 0 < p.top_tube_effective_mm ∧
  0 < p.seat_tube_length_mm ∧ 0 < p.head_tube_length_mm ∧
  0 < p.chainstay_length_mm ∧ 0 < p.bb_drop_mm ∧ 0 < p.wheelbase_mm

instance (p : GeometryPayload) : Decidable (claimedGeometryInvariant p) := by
  unfold claimedGeometryInvariant; infer_instance

/-! ## `backend/scripts/populate_es.py` and `backend/core/utils.py`

The index synchronizer rebuilds both search indices from the entity graph.
Joins (`product.geometry_spec.definition.family`, `product.build_kit`) become
id lookups that raise (`Except.error`) when the relation is missing. -/

def findSpecById (db : DB) (i : ℕ) : Option SpecRow :=
  db.specs.find? (fun s => s.id = i)

def findDefinitionById (db : DB) (i : ℕ) : Option DefinitionRow :=
  db.defRows.find? (fun d => d.id = i)

def findFamilyById (db : DB) (i : ℕ) : Option FamilyRow :=
  db.families.find? (fun f => f.id = i)

def findBuildKitById (db : DB) (i : ℕ) : Option BuildKitRow :=
  db.buildKits.find? (fun b => b.id = i)

/-- `product.geometry_spec.definition` and `.family` ancestry of a product. -/
def productAncestry (db : DB) (p : ProductRow) :
    Except String (SpecRow × DefinitionRow × FamilyRow) := do
  let some s := findSpecById db p.geometry_spec_id
    | .error "missing geometry_spec"
  let some d := findDefinitionById db s.definition_id
    | .error "missing definition"
  let some f := findFamilyById db d.family_id
    | .error "missing family"
  pure (s, d, f)

/-- `MATERIAL_PATTERNS` from `backend/core/constants.py`. -/
def materialPatterns : List (String × List String) :=
  [("carbon", ["carbon", "węgiel", "węglow"]),
   ("aluminum", ["aluminum", "aluminium", "aluninium", "alu"]),
   ("steel", ["steel", "stal", "crmo", "chromoly"]),
   ("titanium", ["titanium", "tytan"])]

/-- `core/utils.get_material_group`. -/
def get_material_group (material : Option String) : String :=
  match material with
  | none => "other"
  | some m =>
    if m = "" then "other"
    else
      match materialPatterns.find? (fun e => patternSearch e.2 m) with
      | some e => e.1
      | none => "other"

/-- A `SpecSearchDocument` (`serialize_bike` output), fields the claimwork
needs. -/
structure SpecDoc where
  docId : ℕ
  sku : String
  colors : List String
  size_label : String
  stack_mm : ℤ
  reach_mm : ℤ
  definition_name : String
  material_group : String
  brand_name : String
deriving DecidableEq, Repr

/-- `serialize_bike(product)`; also reads `product.build_kit`, so a missing
build kit raises. -/
def serialize_bike (db : DB) (p : ProductRow) : Except String SpecDoc := do
  let (s, d, f) ← productAncestry db p
  let some _ := findBuildKitById db p.build_kit_id
    | .error "missing build_kit"
  pure ⟨p.id, p.sku, p.colors, s.size_label, s.payload.stack_mm,
    s.payload.reach_mm, d.name, get_material_group d.material, f.brand_name⟩

/-- `core/utils.group_bike_product(product, siblings)`.  Its first statement
reads `product.frameset.name`, but `BikeProductORM`
(`backend/core/models.py`) defines no `frameset` attribute or relationship —
only `geometry_spec` and `build_kit` — so the call raises `AttributeError`
unconditionally.  The accessor is modelled as the raise it performs. -/
def productFramesetAttr (_p : ProductRow) : Except String Unit :=
  .error "AttributeError: BikeProductORM has no attribute frameset"

/-- The `_source` dict `group_bike_product` would build. -/
structure GroupSource where
  frameset_name : String
  material_group : String
  skus : List String
  product_ids : List ℕ
deriving DecidableEq, Repr

/-- `group_bike_product`: every field of the result dereferences
`product.frameset` (or a sibling's), so the first access raises. -/
def group_bike_product (p : ProductRow) (siblings : List ProductRow) :
    Except String GroupSource := do
  let _ ← productFramesetAttr p
  let _ ← siblings.mapM productFramesetAttr
  pure ⟨"", "", siblings.map (fun q => q.sku), siblings.map (fun q => q.id), ⟩

/-- A Elasticsearch index action produced by `populate_index`'s generator. -/
inductive EsAction where
  | specDoc (d : SpecDoc)
  | groupDoc (groupId : String) (src : GroupSource)
deriving DecidableEq, Repr

/-- `serialize_group(group_key, products)`: the representative is
`products[0]`; the document id is
`f"{family.family_name}-{definition.name}-{rep.build_kit_id}"` with spaces
dashed and lowercased; the `_source` comes from `group_bike_product`. -/
def serialize_group (db : DB) (products : List ProductRow) :
    Except String EsAction := do
  match products with
  | [] => .error "IndexError: list index out of range"
  | rep :: _ => do
    let (_, d, f) ← productAncestry db rep
    let groupId :=
      pyLower (pyReplaceChar ' ' '-'
        (f.family_name ++ "-" ++ d.name ++ "-" ++ toString rep.build_kit_id))
    let src ← group_bike_product rep products
    pure (.groupDoc groupId src)

/-- The grouping loop of `populate_index`: buckets in first-seen order, keyed
by `(family.id, definition.id, product.build_kit_id)`. -/
def groupInsert (key : ℕ × ℕ × ℕ) (p : ProductRow)
    (acc : List ((ℕ × ℕ × ℕ) × List ProductRow)) :
    List ((ℕ × ℕ × ℕ) × List ProductRow) :=
  match acc with
  | [] => [(key, [p])]
  | (k, ps) :: rest =>
    if k = key then (k, ps ++ [p]) :: rest else (k, ps) :: groupInsert key p rest

def groupProducts (db : DB) :
    Except String (List ((ℕ × ℕ × ℕ) × List ProductRow)) :=
  db.products.foldlM
    (fun acc p => do
      let (_, d, f) ← productAncestry db p
      pure (groupInsert (f.id, d.id, p.build_kit_id) p acc))
    []

/-- `populate_index(es, session)`: serialize every product into the
fine-grained index and every group into the group index; any raised exception
aborts the bulk run (`helpers.bulk` consumes the generator). -/
def populate_index (db : DB) : Except String (List EsAction) := do
  let specDocs ← db.products.mapM (fun p => (serialize_bike db p).map .specDoc)
  let groups ← groupProducts db
  let groupDocs ← groups.mapM (fun g => serialize_group db g.2)
  pure (specDocs ++ groupDocs)

/-! ## `backend/scripts/base/base_downloader.py` : `_download_single_page` -/

/-- Outcome of one fetch attempt inside `_fetch`: success, a non-OK HTTP
status on the JSON route (raises `RuntimeError`), or a transient
network/timeout failure (raises a playwright error). -/
inductive FetchOutcome where
  | ok (content : String)
  | httpStatus (status : ℕ)
  | transient
deriving DecidableEq, Repr

/-- `tenacity.wait_exponential(multiplier=1, min=2, max=10)` after the
`attemptNumber`-th completed attempt: `max(2, min(2 ** n, 10))`. -/
def waitExponential (attemptNumber : ℕ) : ℚ :=
  max 2 (min (mkRat ((2 : ℤ) ^ attemptNumber) 1) 10)

/-- The `tenacity.retry(stop=stop_after_attempt(budget),
retry=retry_if_exception_type(Exception), reraise=True)` driver: every raised
exception is retried until the attempt budget is spent, then reraised.
Returns `(attempts made, back-off waits, final outcome)`;
`fetch k` is the outcome of the `k`-th attempt (1-based). -/
def tenacityRun (fetch : ℕ → FetchOutcome) :
    ℕ → ℕ → ℕ × List ℚ × Except FetchOutcome String
  | 0, k => (0, [], .error (fetch k))
  | 1, k =>
    match fetch k with
    | .ok c => (k, [], .ok c)
    | e => (k, [], .error e)
  | n + 2, k =>
    match fetch k with
    | .ok c => (k, [], .ok c)
    | _ =>
      let r := tenacityRun fetch (n + 1) (k + 1)
      (r.1, waitExponential k :: r.2.1, r.2.2)

/-- Result of `_download_single_page` for one URL: attempts performed,
back-off waits, and the content written to the cache (`none`: skipped or
failed — the surrounding `except` logs and returns, the batch continues). -/
structure DownloadResult where
  attempts : ℕ
  waits : List ℚ
  saved : Option String
deriving DecidableEq, Repr

/-- `_download_single_page`: skip if the target name is already cached,
otherwise run `_fetch` under the retry decorator; on final failure the
exception is caught and nothing is written. -/
def download_single_page (existing : List String) (name : String)
    (max_retries : ℕ) (fetch : ℕ → FetchOutcome) : DownloadResult :=
  if name ∈ existing then ⟨0, [], none⟩
  else
    match tenacityRun fetch max_retries 1 with
    | (n, ws, .ok c) => ⟨n, ws, some c⟩
    | (n, ws, .error _) => ⟨n, ws, none⟩

/-! ## `backend/scripts/kross/kross_crawler.py` : `KrossBikeCrawler.run` -/

/-- One iteration of the catalog pagination loop: the listing page either
loads (yielding product URLs and whether a next-page link exists) or
`goto_page` fails after its 3 retries and reraises. -/
inductive PageFetch where
  | ok (urls : List String) (next : Bool)
  | fail
deriving DecidableEq, Repr

/-- The `while current_page_url:` loop of `KrossBikeCrawler.run`, with the
`k`-th visited listing page behaving as the `k`-th trace element.  A `fail`
propagates the reraised exception out of `run` (`Except.error`); a normal
exit sorts the accumulated URL set (`sorted(bike_urls)`), writes it out and
returns it. -/
def crawlLoop (acc : List String) : List PageFetch → Except Unit (List String)
  | [] => .ok (pySortedSet acc)
  | .fail :: _ => .error ()
  | .ok urls nxt :: rest =>
    if nxt then crawlLoop (acc ++ urls) rest else .ok (pySortedSet (acc ++ urls))

/-- `KrossBikeCrawler.run` on a fresh output path. -/
def crawlerRun (trace : List PageFetch) : Except Unit (List String) :=
  crawlLoop [] trace

/-! ## `backend/scripts/kross/kross_populator.py` : `populate_directory`

The per-file batch loop, abstracted over the writes a file's processing
issues to the session.  A file either processes fully (`success` with its
writes) or raises after some partial writes (`failure`). -/

inductive FileResult where
  | success (writes : List ℕ)
  | failure (partialWrites : List ℕ)
deriving DecidableEq, Repr

/-- A database session: `committed` survives a rollback, `pending` does not. -/
structure SessionState where
  committed : List ℕ
  pending : List ℕ
deriving DecidableEq, Repr

def sessionCommit (st : SessionState) : SessionState :=
  ⟨st.committed ++ st.pending, []⟩

def sessionRollback (st : SessionState) : SessionState :=
  ⟨st.committed, []⟩

/-- One iteration of the `for item in files:` loop of `populate_directory`:
`total_files` is incremented for every file (successes and failures alike);
on success the file's writes join the pending transaction and a
`session.commit()` runs iff `total_files % 10 == 0`; on an exception the
whole pending transaction is rolled back and the loop continues. -/
def populateStep (st : SessionState × ℕ) (f : FileResult) : SessionState × ℕ :=
  let total := st.2 + 1
  match f with
  | .success w =>
    let s := { st.1 with pending := st.1.pending ++ w }
    if total % 10 = 0 then (sessionCommit s, total) else (s, total)
  | .failure w =>
    (sessionRollback { st.1 with pending := st.1.pending ++ w }, total)

/-- The loop of `populate_directory` without the trailing commit. -/
def populateLoop (files : List FileResult) (st : SessionState × ℕ) :
    SessionState × ℕ :=
  files.foldl populateStep st

/-- `populate_directory(session, json_dir)`: run the loop over the files and
finish with `session.commit()`; returns the final session and the processed
file count. -/
def populate_directory (files : List FileResult) : SessionState × ℕ :=
  let r := populateLoop files (⟨[], []⟩, 0)
  (sessionCommit r.1, r.2)

/-! ## Generic list lemmas for the populator proofs -/

instance instDecEqExcept {ε α : Type _} [DecidableEq ε] [DecidableEq α] :
    DecidableEq (Except ε α)
  | .error e, .error f =>
    if h : e = f then .isTrue (congrArg Except.error h)
    else .isFalse (fun hh => h (Except.error.inj hh))
  | .error _, .ok _ => .isFalse (fun hh => nomatch hh)
  | .ok _, .error _ => .isFalse (fun hh => nomatch hh)
  | .ok a, .ok b =>
    if h : a = b then .isTrue (congrArg Except.ok h)
    else .isFalse (fun hh => h (Except.ok.inj hh))

theorem updateFirst_mem {p : α → Bool} {f : α → α} {l : List α} {y : α}
    (hy : y ∈ updateFirst p f l) : y ∈ l ∨ ∃ x ∈ l, p x = true ∧ y = f x := by
  induction l with
  | nil => simp [updateFirst] at hy
  | cons x xs ih =>
    by_cases hx : p x
    · simp only [updateFirst, if_pos hx, List.mem_cons] at hy
      rcases hy with h | h
      · exact Or.inr ⟨x, List.mem_cons_self x xs, hx, h⟩
      · exact Or.inl (List.mem_cons_of_mem x h)
    · simp only [updateFirst, if_neg hx, List.mem_cons] at hy
      rcases hy with h | h
      · exact Or.inl (h ▸ List.mem_cons_self x xs)
      · rcases ih h with h' | ⟨z, hz, hpz, hyz⟩
        · exact Or.inl (List.mem_cons_of_mem x h')
        · exact Or.inr ⟨z, List.mem_cons_of_mem x hz, hpz, hyz⟩

theorem updateFirst_length (p : α → Bool) (f : α → α) (l : List α) :
    (updateFirst p f l).length = l.length := by
  induction l with
  | nil => rfl
  | cons x xs ih =>
    by_cases hx : p x
    · simp [updateFirst, if_pos hx]
    · simp [updateFirst, if_neg hx, ih]

theorem updateFirst_eq_self {p : α → Bool} {f : α → α} {l : List α} {a : α}
    (hfind : l.find? p = some a) (hfa : f a = a) : updateFirst p f l = l := by
  induction l with
  | nil => simp at hfind
  | cons x xs ih =>
    by_cases hx : p x
    · rw [List.find?_cons_of_pos _ hx, Option.some_inj] at hfind
      subst hfind
      rw [updateFirst, if_pos hx, hfa]
    · rw [List.find?_cons_of_neg _ hx] at hfind
      rw [updateFirst, if_neg hx, ih hfind]

/-! ## Claim theorems -/

/-- C2: when a GeometrySpec already exists under `(definition_id, normalized
size label)`, repopulating with a (possibly different) payload returns the
existing row and leaves the database unchanged — first-write-wins; the new
payload is never written. -/
theorem geometry_spec_first_write_wins (db : DB) (defId : ℕ) (label : String)
    (payload : GeometryPayload) (s : SpecRow)
    (h : find_geometry_spec db defId (normalize_label label) = some s) :
    get_or_create_geometry_spec db defId label payload = (s, db) := by
  simp only [get_or_create_geometry_spec]
  rw [h]

/-- Fixture for C2: an existing spec `(definition_id = 1, "M")` with
`stack_mm = 580`. -/
def c2payload (stack : ℤ) : GeometryPayload :=
  ⟨stack, 395, 560, 540, 160, 430, mkRat 71 1, mkRat 73 1, 70, 1020⟩

def c2spec : SpecRow := ⟨4, 1, "M", c2payload 580⟩

def c2db : DB := ⟨[⟨0, "Kross", "Level", "mtb"⟩], [⟨1, 0, "Level", none, none, none⟩],
  [c2spec], [], [], 5⟩

theorem geometry_spec_first_write_wins_witness :
    get_or_create_geometry_spec c2db 1 "M" (c2payload 581) = (c2spec, c2db)
    ∧ c2spec.payload.stack_mm = 580 ∧ (c2payload 581).stack_mm = 581 :=
  ⟨geometry_spec_first_write_wins c2db 1 "M" (c2payload 581) c2spec (by decide),
    by decide, by decide⟩

/-- C8: when a Product already exists under `(geometry_spec_id,
build_kit_id)`, `add_bike_product` merges the incoming colors into the stored
ones by set union (no color is lost), updates that row in place (no new row,
`added_skus` untouched) and returns the merged row. -/
theorem product_colors_merge (db : DB) (sku : String) (colors : List String)
    (spec_id bk_id : ℕ) (src : Option String) (added : List String)
    (p : ProductRow) (h : find_product db spec_id bk_id = some p) :
    (add_bike_product db sku colors spec_id bk_id src added).1 =
      { p with colors := pySortedSet (p.colors ++ colors) }
    ∧ (∀ c, c ∈ (add_bike_product db sku colors spec_id bk_id src added).1.colors
        ↔ (c ∈ p.colors ∨ c ∈ colors))
    ∧ (add_bike_product db sku colors spec_id bk_id src added).2.1.products.length
        = db.products.length
    ∧ (add_bike_product db sku colors spec_id bk_id src added).2.2 = added := by
  unfold add_bike_product
  rw [h]
  refine ⟨rfl, ?_, ?_, rfl⟩
  · intro c
    simp only [mem_pySortedSet, List.mem_append]
  · exact updateFirst_length _ _ _

/-- Fixture for C8: an existing product for `(spec 1, build kit 2)` whose
colors are `{"Red"}`. -/
def c8prod : ProductRow := ⟨7, "KROSS-X", ["Red"], 1, 2, none⟩

def c8db : DB := ⟨[], [], [], [], [c8prod], 8⟩

theorem product_colors_merge_witness :
    (add_bike_product c8db "KROSS-X" ["Blue"] 1 2 none []).1.colors
      = ["Blue", "Red"]
    ∧ (add_bike_product c8db "KROSS-X" ["Blue"] 1 2 none []).2.1.products.length = 1
    ∧ (add_bike_product c8db "KROSS-X" ["Blue"] 1 2 none []).2.2 = [] := by
  have h := product_colors_merge c8db "KROSS-X" ["Blue"] 1 2 none [] c8prod (by decide)
  refine ⟨?_, ?_, h.2.2.2⟩
  · rw [congrArg ProductRow.colors h.1]
    decide
  · rw [h.2.2.1]
    decide

/-- C10 (implicit): after every `add_bike_product` call — merge or create —
the returned product's `colors` is duplicate-free and ascending, and (given
the invariant held before) so is every stored product's `colors`. -/
theorem add_bike_product_colors_invariant (db : DB) (sku : String)
    (colors : List String) (spec_id bk_id : ℕ) (src : Option String)
    (added : List String)
    (hdb : ∀ p ∈ db.products, p.colors.Sorted pyLe ∧ p.colors.Nodup) :
    ((add_bike_product db sku colors spec_id bk_id src added).1.colors.Sorted pyLe
      ∧ (add_bike_product db sku colors spec_id bk_id src added).1.colors.Nodup)
    ∧ ∀ p ∈ (add_bike_product db sku colors spec_id bk_id src added).2.1.products,
        p.colors.Sorted pyLe ∧ p.colors.Nodup := by
  unfold add_bike_product
  cases h : find_product db spec_id bk_id with
  | some existing =>
    simp only
    refine ⟨⟨pySortedSet_sorted _, pySortedSet_nodup _⟩, ?_⟩
    intro p hp
    rcases updateFirst_mem hp with hmem | ⟨x, _, _, hpx⟩
    · exact hdb p hmem
    · rw [hpx]
      exact ⟨pySortedSet_sorted _, pySortedSet_nodup _⟩
  | none =>
    simp only
    refine ⟨⟨pySortedSet_sorted _, pySortedSet_nodup _⟩, ?_⟩
    intro p hp
    rcases List.mem_append.mp hp with hmem | hnew
    · exact hdb p hmem
    · rw [List.mem_singleton.mp hnew]
      exact ⟨pySortedSet_sorted _, pySortedSet_nodup _⟩

theorem add_bike_product_colors_invariant_witness :
    ((add_bike_product c8db "KROSS-Y" ["Red", "Blue", "Red"] 3 4 none
        []).1.colors.Sorted pyLe
      ∧ (add_bike_product c8db "KROSS-Y" ["Red", "Blue", "Red"] 3 4 none
        []).1.colors.Nodup)
    ∧ ∀ p ∈ (add_bike_product c8db "KROSS-Y" ["Red", "Blue", "Red"] 3 4 none
        []).2.1.products, p.colors.Sorted pyLe ∧ p.colors.Nodup :=
  add_bike_product_colors_invariant c8db "KROSS-Y" ["Red", "Blue", "Red"] 3 4
    none [] (by decide)

/-- C7: in the Trek extractor's unit normalization, a numeric length value
below the magnitude threshold 150 is treated as centimetres and scaled by 10
(`56.0 ↦ 560`), a value at or above the threshold is kept as millimetres
(`560 ↦ 560`), and the angle entries `HA`/`SA` pass through entirely
unscaled. -/
theorem trek_unit_normalization (k : String) (vals : List SpecValue) (q : ℚ)
    (hk : k ∈ trekLengthKeys) :
    normalizeSpecsEntry (k, vals) = some (k, vals.map normalizeLengthValue)
    ∧ (q < 150 → normalizeLengthValue (.num q) = .num (mkRat (pyRound (ratScale10 q)) 1))
    ∧ (150 ≤ q → normalizeLengthValue (.num q) = .num (mkRat (pyRound q) 1))
    ∧ normalizeSpecsEntry ("HA", vals) = some ("HA", vals)
    ∧ normalizeSpecsEntry ("SA", vals) = some ("SA", vals) := by
  refine ⟨?_, ?_, ?_, ?_, ?_⟩
  · fin_cases hk <;> rfl
  · intro hq
    simp [normalizeLengthValue, if_pos hq]
  · intro hq
    simp [normalizeLengthValue, if_neg (not_lt.mpr hq)]
  · rfl
  · rfl

theorem trek_unit_normalization_witness :
    normalizeSpecsEntry ("stack", [SpecValue.num 56, SpecValue.num 560])
      = some ("stack", [SpecValue.num 560, SpecValue.num 560])
    ∧ normalizeLengthValue (SpecValue.num 56) = SpecValue.num 560
    ∧ normalizeLengthValue (SpecValue.num 560) = SpecValue.num 560
    ∧ normalizeSpecsEntry ("HA", [SpecValue.num (mkRat 145 2)])
      = some ("HA", [SpecValue.num (mkRat 145 2)]) := by
  have h := trek_unit_normalization "stack" [SpecValue.num 56, SpecValue.num 560]
    56 (by decide)
  have h2 := trek_unit_normalization "stack" [] 560 (by decide)
  have h3 := trek_unit_normalization "stack" [SpecValue.num (mkRat 145 2)] 0
    (by decide)
  exact ⟨h.1.trans (by decide), (h.2.1 (by decide)).trans (by decide),
    (h2.2.2.1 (by decide)).trans (by decide), h3.2.2.2.1⟩

/-- C4 counterexample: the retry decorator in `_download_single_page` uses
`retry_if_exception_type(Exception)`, so the `RuntimeError` raised for a
non-OK HTTP status (e.g. 404) is retried like any transient error.  With
`max_retries = 3`, a permanently-404 URL is fetched 3 times (with back-off
waits 2 s and 4 s), not recorded as an immediate skip after 1 attempt as the
claim states. -/
theorem fetch_404_retried_counterexample :
    (download_single_page [] "x.json" 3 (fun _ => .httpStatus 404)).attempts = 3
    ∧ (download_single_page [] "x.json" 3 (fun _ => .httpStatus 404)).waits = [2, 4]
    ∧ (download_single_page [] "x.json" 3 (fun _ => .httpStatus 404)).saved = none
    ∧ (download_single_page [] "x.json" 3 (fun _ => .httpStatus 404)).attempts ≠ 1 := by
  decide

theorem tenacityRun_all_fail (fetch : ℕ → FetchOutcome)
    (hfail : ∀ k c, fetch k ≠ .ok c) :
    ∀ m k, tenacityRun fetch (m + 1) k =
      (m + k, (List.range m).map (fun i => waitExponential (k + i)),
        .error (fetch (m + k))) := by
  intro m
  induction m with
  | zero =>
    intro k
    show tenacityRun fetch 1 k = _
    cases hk : fetch k with
    | ok c => exact absurd hk (hfail k c)
    | httpStatus s => simp [tenacityRun, hk]
    | transient => simp [tenacityRun, hk]
  | succ m ih =>
    intro k
    show tenacityRun fetch (m + 2) k = _
    cases hk : fetch k with
    | ok c => exact absurd hk (hfail k c)
    | httpStatus s =>
      simp only [tenacityRun, hk, ih (k + 1), Prod.mk.injEq]
      refine ⟨by omega, ?_, by rw [show m + 1 + k = m + (k + 1) by omega]⟩
      rw [List.range_succ_eq_map, List.map_cons, List.map_map, Nat.add_zero]
      congr 1
      apply List.map_congr_left
      intro i _
      simp only [Function.comp_apply]
      rw [show k + 1 + i = k + (i + 1) by omega]
    | transient =>
      simp only [tenacityRun, hk, ih (k + 1), Prod.mk.injEq]
      refine ⟨by omega, ?_, by rw [show m + 1 + k = m + (k + 1) by omega]⟩
      rw [List.range_succ_eq_map, List.map_cons, List.map_map, Nat.add_zero]
      congr 1
      apply List.map_congr_left
      intro i _
      simp only [Function.comp_apply]
      rw [show k + 1 + i = k + (i + 1) by omega]

/-- C4 amended: every fetch failure — non-retryable HTTP statuses included —
is retried up to the whole attempt budget with the exponential back-off
schedule; once the budget is exhausted the error is caught, nothing is
written, and the batch continues (the function returns normally). -/
theorem download_retries_all_errors (existing : List String) (name : String)
    (m : ℕ) (fetch : ℕ → FetchOutcome) (hname : name ∉ existing)
    (hfail : ∀ k c, fetch k ≠ .ok c) :
    download_single_page existing name (m + 1) fetch =
      ⟨m + 1, (List.range m).map (fun i => waitExponential (1 + i)), none⟩ := by
  unfold download_single_page
  rw [if_neg hname, tenacityRun_all_fail fetch hfail m 1]

theorem download_retries_all_errors_witness :
    download_single_page [] "y.html" 3 (fun _ => FetchOutcome.transient)
      = ⟨3, [2, 4], none⟩ := by
  have h := download_retries_all_errors [] "y.html" 2
    (fun _ => FetchOutcome.transient) (by decide) (fun _ _ h => nomatch h)
  exact h.trans (by decide)

/-- C5 counterexample: in `KrossBikeCrawler.run`, the first listing page
yields URLs `a`, `b` and a next-page link; the second listing page fails
after `goto_page` exhausts its retries.  The claim predicts the partial
result `["a", "b"]`; the code lets the reraised exception propagate out of
`run`, so the crawl aborts with no result. -/
theorem crawler_abort_counterexample :
    crawlerRun [PageFetch.ok ["a", "b"] true, PageFetch.fail] = .error ()
    ∧ crawlerRun [PageFetch.ok ["a", "b"] true, PageFetch.fail]
        ≠ .ok ["a", "b"] := by
  decide

/-- C5 amended: a listing-page fetch failure after exhausting retries aborts
the whole URL-collection run with the propagated exception: no URL list is
returned (and none is persisted), whatever was already collected is
discarded. -/
theorem crawler_fail_aborts (pre post : List PageFetch) (acc : List String)
    (hpre : ∀ p ∈ pre, ∃ urls, p = .ok urls true) :
    crawlLoop acc (pre ++ .fail :: post) = .error () := by
  induction pre generalizing acc with
  | nil => rfl
  | cons p ps ih =>
    obtain ⟨urls, rfl⟩ := hpre p (List.mem_cons_self p ps)
    show crawlLoop acc (.ok urls true :: (ps ++ .fail :: post)) = .error ()
    simp only [crawlLoop, if_pos rfl]
    exact ih (acc ++ urls) (fun q hq => hpre q (List.mem_cons_of_mem _ hq))

theorem crawler_fail_aborts_witness :
    crawlLoop [] ([PageFetch.ok ["a", "b"] true] ++ PageFetch.fail :: [])
      = .error () :=
  crawler_fail_aborts [PageFetch.ok ["a", "b"] true] [] []
    (fun _ hp => ⟨["a", "b"], List.mem_singleton.mp hp⟩)

/-- Fixture for C6: ten files; file 1 succeeds writing `1`, file 2 raises
after partially writing `2`, files 3–10 succeed writing `3`–`10`. -/
def c6files : List FileResult :=
  [.success [1], .failure [2], .success [3], .success [4], .success [5],
   .success [6], .success [7], .success [8], .success [9], .success [10]]

/-- C6 counterexample: only file 2 fails, yet file 1's committed-to-pending
write is lost — `session.rollback()` discards the whole uncommitted window,
not just the failing record's partial writes.  Also the checkpoint commit
fires at the 10th *attempted* file (9 successes), not after 10 successes. -/
theorem populate_batch_counterexample :
    populate_directory c6files = (⟨[3, 4, 5, 6, 7, 8, 9, 10], []⟩, 10)
    ∧ (1 : ℕ) ∉ (populate_directory c6files).1.committed
    ∧ populateLoop c6files (⟨[], []⟩, 0)
        = (⟨[3, 4, 5, 6, 7, 8, 9, 10], []⟩, 10) := by
  decide

theorem populateLoop_count (files : List FileResult) :
    ∀ st : SessionState × ℕ, (populateLoop files st).2 = st.2 + files.length := by
  induction files with
  | nil => intro st; simp [populateLoop]
  | cons f fs ih =>
    intro st
    show (populateLoop fs (populateStep st f)).2 = st.2 + (fs.length + 1)
    rw [ih (populateStep st f)]
    have hstep : (populateStep st f).2 = st.2 + 1 := by
      cases f with
      | success w =>
        simp only [populateStep]
        by_cases h : (st.2 + 1) % 10 = 0 <;> simp [h]
      | failure w => rfl
    omega

/-- C6 amended: `total_files` counts every attempted file, so a checkpoint
commit happens at each 10th *attempt* — and only if that file succeeds; an
exception rolls back the entire uncommitted window (the failing record's
partial writes together with any successes since the last checkpoint);
processing always continues through every file, so no single malformed input
aborts the batch, and a final commit persists the remainder. -/
theorem populate_batch_semantics (st : SessionState) (total : ℕ)
    (w : List ℕ) (files : List FileResult) :
    populateStep (st, total) (.failure w) = (⟨st.committed, []⟩, total + 1)
    ∧ ((total + 1) % 10 = 0 →
        populateStep (st, total) (.success w)
          = (⟨st.committed ++ (st.pending ++ w), []⟩, total + 1))
    ∧ ((total + 1) % 10 ≠ 0 →
        populateStep (st, total) (.success w)
          = (⟨st.committed, st.pending ++ w⟩, total + 1))
    ∧ (populate_directory files).2 = files.length := by
  refine ⟨rfl, ?_, ?_, ?_⟩
  · intro h
    simp [populateStep, sessionCommit, h]
  · intro h
    simp [populateStep, if_neg h]
  · show (populateLoop files (⟨[], []⟩, 0)).2 = files.length
    rw [populateLoop_count files (⟨[], []⟩, 0)]
    simp

theorem populate_batch_semantics_witness :
    populateStep (⟨[0], [1]⟩, 4) (.failure [2]) = (⟨[0], []⟩, 5)
    ∧ populateStep (⟨[0], [1]⟩, 9) (.success [2]) = (⟨[0, 1, 2], []⟩, 10)
    ∧ populateStep (⟨[0], [1]⟩, 4) (.success [2]) = (⟨[0], [1, 2]⟩, 5)
    ∧ (populate_directory [FileResult.success [1], FileResult.failure [2]]).2
        = 2 := by
  have h4 := populate_batch_semantics ⟨[0], [1]⟩ 4 [2]
    [FileResult.success [1], FileResult.failure [2]]
  have h9 := populate_batch_semantics ⟨[0], [1]⟩ 9 [2]
    [FileResult.success [1], FileResult.failure [2]]
  exact ⟨h4.1, (h9.2.1 (by decide)).trans (by decide),
    (h4.2.2.1 (by decide)).trans (by decide), h4.2.2.2⟩

/-- Fixture for C9: a geometry column table whose head angle is 90°. -/
def c9specs : List (String × List SpecValue) :=
  [("stack", [.num 580]), ("reach", [.num 400]), ("TT", [.num 560]),
   ("ST", [.num 540]), ("HT", [.num 160]), ("CS", [.num 430]),
   ("HA", [.num 90]), ("SA", [.num 73]), ("bb_drop", [.num 70]),
   ("WB", [.num 1020])]

def c9payload : GeometryPayload :=
  ⟨580, 400, 560, 540, 160, 430, mkRat 90 1, mkRat 73 1, 70, 1020⟩

def c9db : DB := ⟨[], [⟨1, 0, "X", none, none, none⟩], [], [], [], 2⟩

/-- C9 counterexample: the populate path enforces no angle bounds at all —
`build_geometry_payload` accepts a row with `head_tube_angle = 90` and
`get_or_create_geometry_spec` persists it verbatim, although 90 is outside
the claimed `[60, 80]` range (and outside the `[60, 75]` range of the
`GeometryData` validation model, which this path never invokes). -/
theorem geometry_invariant_counterexample :
    build_geometry_payload c9specs 0 = some c9payload
    ∧ (get_or_create_geometry_spec c9db 1 "M" c9payload).2.specs
        = [⟨2, 1, "M", c9payload⟩]
    ∧ ¬ claimedGeometryInvariant c9payload := by
  decide

/-- C9 amended: the bounds the code actually states live in the pydantic
model `GeometryData` — head angle in `[60, 75]`, seat angle in `[70, 80]`,
all length fields positive — and hold for every record that model accepts;
the populator's persist path (`build_geometry_payload` →
`get_or_create_geometry_spec`) stores payloads verbatim without applying
this or any other validation. -/
theorem geometry_bounds_amended (g : GeometryDataInput) (db : DB) (defId : ℕ)
    (label : String) (payload : GeometryPayload)
    (hval : geometryDataValidates g = true)
    (hnew : find_geometry_spec db defId (normalize_label label) = none) :
    (60 ≤ g.head_tube_angle ∧ g.head_tube_angle ≤ 75
      ∧ 70 ≤ g.seat_tube_angle ∧ g.seat_tube_angle ≤ 80
      ∧ 0 < g.stack ∧ 0 < g.reach ∧ 0 < g.top_tube_effective_length
      ∧ 0 < g.seat_tube_length ∧ 0 < g.head_tube_length
      ∧ 0 < g.chainstay_length ∧ 0 < g.bb_drop ∧ 0 < g.wheelbase)
    ∧ (get_or_create_geometry_spec db defId label payload).2.specs
        = db.specs ++ [⟨db.nextId, defId, normalize_label label, payload⟩] := by
  constructor
  · simp only [geometryDataValidates, positiveInt, floatGeLe, Bool.and_eq_true,
      decide_eq_true_eq] at hval
    tauto
  · simp only [get_or_create_geometry_spec]
    rw [hnew]

def c9valid : GeometryDataInput :=
  ⟨600, 400, 560, 540, 160, 430, mkRat 71 1, mkRat 73 1, 70, 1020⟩

theorem geometry_bounds_amended_witness :
    (60 ≤ c9valid.head_tube_angle ∧ c9valid.head_tube_angle ≤ 75
      ∧ 70 ≤ c9valid.seat_tube_angle ∧ c9valid.seat_tube_angle ≤ 80
      ∧ 0 < c9valid.stack ∧ 0 < c9valid.reach
      ∧ 0 < c9valid.top_tube_effective_length ∧ 0 < c9valid.seat_tube_length
      ∧ 0 < c9valid.head_tube_length ∧ 0 < c9valid.chainstay_length
      ∧ 0 < c9valid.bb_drop ∧ 0 < c9valid.wheelbase)
    ∧ (get_or_create_geometry_spec c9db 1 "M" c9payload).2.specs
        = c9db.specs ++ [⟨c9db.nextId, 1, normalize_label "M", c9payload⟩] :=
  geometry_bounds_amended c9valid c9db 1 "M" c9payload (by decide) (by decide)

/-- Fixture for C3: a well-formed entity graph with exactly one product, so
exactly one `(definition, build_kit)` pair is populated. -/
def c3db : DB :=
  ⟨[⟨0, "Kross", "Level", "mtb"⟩], [⟨1, 0, "Level", none, none, none⟩],
   [⟨2, 1, "M", c2payload 580⟩], [⟨3, "Standard Build", none, none, none, none⟩],
   [⟨4, "KROSS-LEVEL-M", ["Red"], 2, 3, none⟩], 5⟩

/-- C3 (code bug): the index-synchronization run cannot establish the group
invariant because `core/utils.group_bike_product` still dereferences
`product.frameset`, an attribute the current `BikeProductORM` no longer has;
`populate_index` raises `AttributeError` while building the first group
document, so for a database with one product the pair
`(definition 1, build_kit 3)` ends the run with no GroupSearchDocument. -/
theorem group_document_attribute_error :
    c3db.products ≠ []
    ∧ populate_index c3db
        = .error "AttributeError: BikeProductORM has no attribute frameset" := by
  decide

/-! ## C1 : idempotence of the populator

Natural keys of the five tables (the unique constraints of
`backend/core/models.py` that the get-or-create lookups resolve on). -/

def famKey (f : FamilyRow) : String × String := (f.brand_name, f.family_name)

def defKey (d : DefinitionRow) : ℕ × String × Option String :=
  (d.family_id, d.name, d.material)

def specKey (s : SpecRow) : ℕ × String := (s.definition_id, s.size_label)

def bkKey (b : BuildKitRow) :
    String × Option String × Option String × Option String × Option String :=
  (b.name, b.groupset, b.wheelset, b.cockpit, b.tires)

def prodKey (p : ProductRow) : ℕ × ℕ := (p.geometry_spec_id, p.build_kit_id)

/-- The natural-key tuple of `get_or_create_build_kit`'s input dict. -/
def bkDataKey (d : BuildKitData) :
    String × Option String × Option String × Option String × Option String :=
  (buildKitName d, d.groupset, d.wheelset, d.cockpit, d.tires)

/-- Session-state invariant maintained by the populator: every table is
duplicate-free on its natural key, and stored color lists are sorted and
duplicate-free. -/
def Inv (db : DB) : Prop :=
  db.families.Pairwise (fun a b => famKey a ≠ famKey b)
  ∧ db.defRows.Pairwise (fun a b => defKey a ≠ defKey b)
  ∧ db.specs.Pairwise (fun a b => specKey a ≠ specKey b)
  ∧ db.buildKits.Pairwise (fun a b => bkKey a ≠ bkKey b)
  ∧ db.products.Pairwise (fun a b => prodKey a ≠ prodKey b)
  ∧ ∀ p ∈ db.products, p.colors.Sorted pyLe ∧ p.colors.Nodup

theorem inv_emptyDB : Inv emptyDB := by
  refine ⟨.nil, .nil, .nil, .nil, .nil, ?_⟩
  intro p hp
  cases hp

/-- `db'` extends `db`: rows of the four immutable tables survive unchanged,
and every product survives with the same identity and key and a superset of
its colors (color merging only ever grows the set). -/
def DBLe (db db' : DB) : Prop :=
  (∀ f ∈ db.families, f ∈ db'.families)
  ∧ (∀ d ∈ db.defRows, d ∈ db'.defRows)
  ∧ (∀ s ∈ db.specs, s ∈ db'.specs)
  ∧ (∀ b ∈ db.buildKits, b ∈ db'.buildKits)
  ∧ (∀ p ∈ db.products, ∃ p' ∈ db'.products, p'.id = p.id
      ∧ p'.geometry_spec_id = p.geometry_spec_id
      ∧ p'.build_kit_id = p.build_kit_id
      ∧ ∀ c ∈ p.colors, c ∈ p'.colors)

theorem dbLe_refl (db : DB) : DBLe db db := by
  refine ⟨fun f hf => hf, fun d hd => hd, fun s hs => hs, fun b hb => hb, ?_⟩
  intro p hp
  exact ⟨p, hp, rfl, rfl, rfl, fun c hc => hc⟩

theorem dbLe_trans {db₁ db₂ db₃ : DB} (h : DBLe db₁ db₂) (h' : DBLe db₂ db₃) :
    DBLe db₁ db₃ := by
  refine ⟨fun f hf => h'.1 f (h.1 f hf), fun d hd => h'.2.1 d (h.2.1 d hd),
    fun s hs => h'.2.2.1 s (h.2.2.1 s hs),
    fun b hb => h'.2.2.2.1 b (h.2.2.2.1 b hb), ?_⟩
  intro p hp
  obtain ⟨q, hq, hqid, hqs, hqb, hqc⟩ := h.2.2.2.2 p hp
  obtain ⟨q', hq', hqid', hqs', hqb', hqc'⟩ := h'.2.2.2.2 q hq
  exact ⟨q', hq', hqid'.trans hqid, hqs'.trans hqs, hqb'.trans hqb,
    fun c hc => hqc' c (hqc c hc)⟩

/-! ### Generic lookup lemmas -/

theorem eq_of_pairwiseKeys {κ : Type _} {k : α → κ} {l : List α}
    (h : l.Pairwise (fun a b => k a ≠ k b)) {x y : α}
    (hx : x ∈ l) (hy : y ∈ l) (hk : k x = k y) : x = y := by
  induction l with
  | nil => cases hx
  | cons a as ih =>
    rw [List.pairwise_cons] at h
    cases hx with
    | head =>
      cases hy with
      | head => rfl
      | tail _ hy' => exact absurd hk (h.1 y hy')
    | tail _ hx' =>
      cases hy with
      | head => exact absurd hk.symm (h.1 x hx')
      | tail _ hy' => exact ih h.2 hx' hy'

theorem find?_eq_some_of_unique {l : List α} {p : α → Bool} {x : α}
    (hx : x ∈ l) (hpx : p x = true)
    (huniq : ∀ y ∈ l, p y = true → y = x) : l.find? p = some x := by
  induction l with
  | nil => cases hx
  | cons a as ih =>
    by_cases hpa : p a
    · rw [List.find?_cons_of_pos _ hpa]
      rw [huniq a (List.mem_cons_self a as) hpa]
    · rw [List.find?_cons_of_neg _ hpa]
      have hxas : x ∈ as := by
        cases hx with
        | head => exact absurd hpx hpa
        | tail _ h => exact h
      exact ih hxas (fun y hy hpy => huniq y (List.mem_cons_of_mem a hy) hpy)

theorem find?_none_forall {l : List α} {p : α → Bool}
    (h : l.find? p = none) : ∀ x ∈ l, p x = false := by
  intro x hx
  have := List.find?_eq_none.mp h x hx
  exact Bool.eq_false_iff.mpr this

theorem updateFirst_mem_cases {p : α → Bool} {f : α → α} {l : List α} {x : α}
    (hx : x ∈ l) :
    x ∈ updateFirst p f l
    ∨ (l.find? p = some x ∧ f x ∈ updateFirst p f l) := by
  induction l with
  | nil => cases hx
  | cons a as ih =>
    by_cases hpa : p a
    · cases hx with
      | head =>
        exact Or.inr ⟨List.find?_cons_of_pos _ hpa, by
          rw [updateFirst, if_pos hpa]; exact List.mem_cons_self _ _⟩
      | tail _ hx' =>
        rw [updateFirst, if_pos hpa]
        exact Or.inl (List.mem_cons_of_mem _ hx')
    · rw [updateFirst, if_neg hpa]
      cases hx with
      | head => exact Or.inl (List.mem_cons_self _ _)
      | tail _ hx' =>
        rcases ih hx' with h | ⟨hfind, hmem⟩
        · exact Or.inl (List.mem_cons_of_mem _ h)
        · exact Or.inr ⟨by rw [List.find?_cons_of_neg _ hpa]; exact hfind,
            List.mem_cons_of_mem _ hmem⟩

theorem updateFirst_find_mem {p : α → Bool} {f : α → α} {l : List α} {x : α}
    (hfind : l.find? p = some x) : f x ∈ updateFirst p f l := by
  induction l with
  | nil => simp at hfind
  | cons a as ih =>
    by_cases hpa : p a
    · rw [List.find?_cons_of_pos _ hpa, Option.some_inj] at hfind
      subst hfind
      rw [updateFirst, if_pos hpa]
      exact List.mem_cons_self _ _
    · rw [List.find?_cons_of_neg _ hpa] at hfind
      rw [updateFirst, if_neg hpa]
      exact List.mem_cons_of_mem _ (ih hfind)

theorem updateFirst_pairwise {κ : Type _} {k : α → κ} {p : α → Bool} {f : α → α}
    {l : List α} (hkey : ∀ x, k (f x) = k x)
    (h : l.Pairwise (fun a b => k a ≠ k b)) :
    (updateFirst p f l).Pairwise (fun a b => k a ≠ k b) := by
  induction l with
  | nil => exact .nil
  | cons a as ih =>
    rw [List.pairwise_cons] at h
    by_cases hpa : p a
    · rw [updateFirst, if_pos hpa]
      rw [List.pairwise_cons]
      exact ⟨fun y hy => by rw [hkey a]; exact h.1 y hy, h.2⟩
    · rw [updateFirst, if_neg hpa]
      rw [List.pairwise_cons]
      refine ⟨?_, ih h.2⟩
      intro y hy
      rcases updateFirst_mem hy with hmem | ⟨x, hx, _, rfl⟩
      · exact h.1 y hmem
      · rw [hkey x]
        exact h.1 x hx

/-! ### Lookup characterizations -/

theorem find_family_some {db : DB} {b n : String} {f : FamilyRow}
    (h : find_family db b n = some f) :
    f ∈ db.families ∧ famKey f = (b, n) := by
  refine ⟨List.mem_of_find?_eq_some h, ?_⟩
  have hp := List.find?_some h
  simp only [decide_eq_true_eq] at hp
  simp [famKey, hp.1, hp.2]

theorem find_family_of_key {db : DB} {b n : String} {f : FamilyRow}
    (hInv : Inv db) (hf : f ∈ db.families) (hk : famKey f = (b, n)) :
    find_family db b n = some f := by
  simp only [famKey, Prod.mk.injEq] at hk
  apply find?_eq_some_of_unique hf (by simp [hk.1, hk.2])
  intro y hy hpy
  simp only [decide_eq_true_eq] at hpy
  exact eq_of_pairwiseKeys hInv.1 hy hf
    (by simp [famKey, hpy.1, hpy.2, hk.1, hk.2])

theorem find_definition_some {db : DB} {fid : ℕ} {n : String}
    {mat : Option String} {d : DefinitionRow}
    (h : find_definition db fid n mat = some d) :
    d ∈ db.defRows ∧ defKey d = (fid, n, mat) := by
  refine ⟨List.mem_of_find?_eq_some h, ?_⟩
  have hp := List.find?_some h
  simp only [decide_eq_true_eq] at hp
  simp [defKey, hp.1, hp.2.1, hp.2.2]

theorem find_definition_of_key {db : DB} {fid : ℕ} {n : String}
    {mat : Option String} {d : DefinitionRow} (hInv : Inv db)
    (hd : d ∈ db.defRows) (hk : defKey d = (fid, n, mat)) :
    find_definition db fid n mat = some d := by
  simp only [defKey, Prod.mk.injEq] at hk
  apply find?_eq_some_of_unique hd (by simp [hk.1, hk.2.1, hk.2.2])
  intro y hy hpy
  simp only [decide_eq_true_eq] at hpy
  exact eq_of_pairwiseKeys hInv.2.1 hy hd
    (by simp [defKey, hpy.1, hpy.2.1, hpy.2.2, hk.1, hk.2.1, hk.2.2])

theorem find_build_kit_some {db : DB} {n : String}
    {g w c t : Option String} {b : BuildKitRow}
    (h : find_build_kit db n g w c t = some b) :
    b ∈ db.buildKits ∧ bkKey b = (n, g, w, c, t) := by
  refine ⟨List.mem_of_find?_eq_some h, ?_⟩
  have hp := List.find?_some h
  simp only [decide_eq_true_eq] at hp
  simp [bkKey, hp.1, hp.2.1, hp.2.2.1, hp.2.2.2.1, hp.2.2.2.2]

theorem find_build_kit_of_key {db : DB} {n : String}
    {g w c t : Option String} {b : BuildKitRow} (hInv : Inv db)
    (hb : b ∈ db.buildKits) (hk : bkKey b = (n, g, w, c, t)) :
    find_build_kit db n g w c t = some b := by
  simp only [bkKey, Prod.mk.injEq] at hk
  apply find?_eq_some_of_unique hb
    (by simp [hk.1, hk.2.1, hk.2.2.1, hk.2.2.2.1, hk.2.2.2.2])
  intro y hy hpy
  simp only [decide_eq_true_eq] at hpy
  exact eq_of_pairwiseKeys hInv.2.2.2.1 hy hb
    (by simp [bkKey, hpy.1, hpy.2.1, hpy.2.2.1, hpy.2.2.2.1, hpy.2.2.2.2,
      hk.1, hk.2.1, hk.2.2.1, hk.2.2.2.1, hk.2.2.2.2])

theorem find_geometry_spec_some {db : DB} {did : ℕ} {lab : String}
    {s : SpecRow} (h : find_geometry_spec db did lab = some s) :
    s ∈ db.specs ∧ specKey s = (did, lab) := by
  refine ⟨List.mem_of_find?_eq_some h, ?_⟩
  have hp := List.find?_some h
  simp only [decide_eq_true_eq] at hp
  simp [specKey, hp.1, hp.2]

theorem find_geometry_spec_of_key {db : DB} {did : ℕ} {lab : String}
    {s : SpecRow} (hInv : Inv db) (hs : s ∈ db.specs)
    (hk : specKey s = (did, lab)) :
    find_geometry_spec db did lab = some s := by
  simp only [specKey, Prod.mk.injEq] at hk
  apply find?_eq_some_of_unique hs (by simp [hk.1, hk.2])
  intro y hy hpy
  simp only [decide_eq_true_eq] at hpy
  exact eq_of_pairwiseKeys hInv.2.2.1 hy hs
    (by simp [specKey, hpy.1, hpy.2, hk.1, hk.2])

theorem find_product_some {db : DB} {sid bid : ℕ} {p : ProductRow}
    (h : find_product db sid bid = some p) :
    p ∈ db.products ∧ prodKey p = (sid, bid) := by
  refine ⟨List.mem_of_find?_eq_some h, ?_⟩
  have hp := List.find?_some h
  simp only [decide_eq_true_eq] at hp
  simp [prodKey, hp.1, hp.2]

theorem find_product_of_key {db : DB} {sid bid : ℕ} {p : ProductRow}
    (hInv : Inv db) (hp : p ∈ db.products) (hk : prodKey p = (sid, bid)) :
    find_product db sid bid = some p := by
  simp only [prodKey, Prod.mk.injEq] at hk
  apply find?_eq_some_of_unique hp (by simp [hk.1, hk.2])
  intro y hy hpy
  simp only [decide_eq_true_eq] at hpy
  exact eq_of_pairwiseKeys hInv.2.2.2.2.1 hy hp
    (by simp [prodKey, hpy.1, hpy.2, hk.1, hk.2])

/-! ### Per-operation specifications -/

theorem get_or_create_family_found {db : DB} {b n c : String} {f : FamilyRow}
    (h : find_family db b n = some f) :
    get_or_create_family db b n c = (f, db) := by
  simp only [get_or_create_family, h]

theorem get_or_create_family_spec (db : DB) (b n c : String) (hInv : Inv db) :
    (get_or_create_family db b n c).1 ∈ (get_or_create_family db b n c).2.families
    ∧ famKey (get_or_create_family db b n c).1 = (b, n)
    ∧ Inv (get_or_create_family db b n c).2
    ∧ DBLe db (get_or_create_family db b n c).2 := by
  cases hfind : find_family db b n with
  | some f =>
    rw [get_or_create_family_found hfind]
    exact ⟨(find_family_some hfind).1, (find_family_some hfind).2, hInv,
      dbLe_refl db⟩
  | none =>
    simp only [get_or_create_family, hfind]
    refine ⟨List.mem_append_right _ (List.mem_singleton_self _), rfl, ?_, ?_⟩
    · refine ⟨?_, hInv.2.1, hInv.2.2.1, hInv.2.2.2.1, hInv.2.2.2.2.1,
        hInv.2.2.2.2.2⟩
      rw [List.pairwise_append]
      refine ⟨hInv.1, List.pairwise_singleton _ _, ?_⟩
      intro x hx y hy
      rw [List.mem_singleton.mp hy]
      have hpx := find?_none_forall hfind x hx
      simp only [decide_eq_false_iff_not, not_and] at hpx
      simp only [famKey, ne_eq, Prod.mk.injEq, not_and]
      intro hb hn
      exact hpx hb hn
    · refine ⟨fun x hx => List.mem_append_left _ hx, fun d hd => hd,
        fun s hs => hs, fun bk hbk => hbk, ?_⟩
      intro p hp
      exact ⟨p, hp, rfl, rfl, rfl, fun c hc => hc⟩

theorem get_or_create_definition_found {db : DB} {fid : ℕ} {n : String}
    {mat : Option String} {y : Option ℤ} {d : DefinitionRow}
    (h : find_definition db fid n mat = some d) :
    get_or_create_definition db fid n mat y = (d, db) := by
  simp only [get_or_create_definition, h]

theorem get_or_create_definition_spec (db : DB) (fid : ℕ) (n : String)
    (mat : Option String) (y : Option ℤ) (hInv : Inv db) :
    (get_or_create_definition db fid n mat y).1
        ∈ (get_or_create_definition db fid n mat y).2.defRows
    ∧ defKey (get_or_create_definition db fid n mat y).1 = (fid, n, mat)
    ∧ Inv (get_or_create_definition db fid n mat y).2
    ∧ DBLe db (get_or_create_definition db fid n mat y).2 := by
  cases hfind : find_definition db fid n mat with
  | some d =>
    rw [get_or_create_definition_found hfind]
    exact ⟨(find_definition_some hfind).1, (find_definition_some hfind).2, hInv,
      dbLe_refl db⟩
  | none =>
    simp only [get_or_create_definition, hfind]
    refine ⟨List.mem_append_right _ (List.mem_singleton_self _), rfl, ?_, ?_⟩
    · refine ⟨hInv.1, ?_, hInv.2.2.1, hInv.2.2.2.1, hInv.2.2.2.2.1,
        hInv.2.2.2.2.2⟩
      rw [List.pairwise_append]
      refine ⟨hInv.2.1, List.pairwise_singleton _ _, ?_⟩
      intro x hx z hz
      rw [List.mem_singleton.mp hz]
      have hpx := find?_none_forall hfind x hx
      simp only [decide_eq_false_iff_not, not_and] at hpx
      simp only [defKey, ne_eq, Prod.mk.injEq, not_and]
      intro h1 h2 h3
      exact hpx h1 h2 h3
    · refine ⟨fun x hx => hx, fun x hx => List.mem_append_left _ hx,
        fun s hs => hs, fun bk hbk => hbk, ?_⟩
      intro p hp
      exact ⟨p, hp, rfl, rfl, rfl, fun c hc => hc⟩

theorem get_or_create_build_kit_found {db : DB} {data : BuildKitData}
    {b : BuildKitRow}
    (h : find_build_kit db (buildKitName data) data.groupset data.wheelset
      data.cockpit data.tires = some b) :
    get_or_create_build_kit db data = (b, db) := by
  simp only [get_or_create_build_kit, h]

theorem get_or_create_build_kit_spec (db : DB) (data : BuildKitData)
    (hInv : Inv db) :
    (get_or_create_build_kit db data).1
        ∈ (get_or_create_build_kit db data).2.buildKits
    ∧ bkKey (get_or_create_build_kit db data).1 = bkDataKey data
    ∧ Inv (get_or_create_build_kit db data).2
    ∧ DBLe db (get_or_create_build_kit db data).2 := by
  cases hfind : find_build_kit db (buildKitName data) data.groupset
      data.wheelset data.cockpit data.tires with
  | some b =>
    rw [get_or_create_build_kit_found hfind]
    exact ⟨(find_build_kit_some hfind).1, (find_build_kit_some hfind).2, hInv,
      dbLe_refl db⟩
  | none =>
    simp only [get_or_create_build_kit, hfind]
    refine ⟨List.mem_append_right _ (List.mem_singleton_self _), rfl, ?_, ?_⟩
    · refine ⟨hInv.1, hInv.2.1, hInv.2.2.1, ?_, hInv.2.2.2.2.1,
        hInv.2.2.2.2.2⟩
      rw [List.pairwise_append]
      refine ⟨hInv.2.2.2.1, List.pairwise_singleton _ _, ?_⟩
      intro x hx z hz
      rw [List.mem_singleton.mp hz]
      have hpx := find?_none_forall hfind x hx
      simp only [decide_eq_false_iff_not, not_and] at hpx
      simp only [bkKey, ne_eq, Prod.mk.injEq, not_and]
      intro h1 h2 h3 h4 h5
      exact hpx h1 h2 h3 h4 h5
    · refine ⟨fun x hx => hx, fun x hx => hx, fun s hs => hs,
        fun bk hbk => List.mem_append_left _ hbk, ?_⟩
      intro p hp
      exact ⟨p, hp, rfl, rfl, rfl, fun c hc => hc⟩

theorem get_or_create_geometry_spec_spec (db : DB) (did : ℕ) (lab : String)
    (payload : GeometryPayload) (hInv : Inv db) :
    (get_or_create_geometry_spec db did lab payload).1
        ∈ (get_or_create_geometry_spec db did lab payload).2.specs
    ∧ specKey (get_or_create_geometry_spec db did lab payload).1
        = (did, normalize_label lab)
    ∧ Inv (get_or_create_geometry_spec db did lab payload).2
    ∧ DBLe db (get_or_create_geometry_spec db did lab payload).2 := by
  cases hfind : find_geometry_spec db did (normalize_label lab) with
  | some s =>
    rw [geometry_spec_first_write_wins db did lab payload s hfind]
    exact ⟨(find_geometry_spec_some hfind).1, (find_geometry_spec_some hfind).2,
      hInv, dbLe_refl db⟩
  | none =>
    simp only [get_or_create_geometry_spec, hfind]
    refine ⟨List.mem_append_right _ (List.mem_singleton_self _), rfl, ?_, ?_⟩
    · refine ⟨hInv.1, hInv.2.1, ?_, hInv.2.2.2.1, hInv.2.2.2.2.1,
        hInv.2.2.2.2.2⟩
      rw [List.pairwise_append]
      refine ⟨hInv.2.2.1, List.pairwise_singleton _ _, ?_⟩
      intro x hx z hz
      rw [List.mem_singleton.mp hz]
      have hpx := find?_none_forall hfind x hx
      simp only [decide_eq_false_iff_not, not_and] at hpx
      simp only [specKey, ne_eq, Prod.mk.injEq, not_and]
      intro h1 h2
      exact hpx h1 h2
    · refine ⟨fun x hx => hx, fun x hx => hx,
        fun s hs => List.mem_append_left _ hs, fun bk hbk => hbk, ?_⟩
      intro p hp
      exact ⟨p, hp, rfl, rfl, rfl, fun c hc => hc⟩

theorem add_bike_product_spec (db : DB) (sku : String) (colors : List String)
    (sid bid : ℕ) (src : Option String) (added : List String) (hInv : Inv db) :
    (∃ P ∈ (add_bike_product db sku colors sid bid src added).2.1.products,
      prodKey P = (sid, bid) ∧ ∀ c ∈ colors, c ∈ P.colors)
    ∧ Inv (add_bike_product db sku colors sid bid src added).2.1
    ∧ DBLe db (add_bike_product db sku colors sid bid src added).2.1 := by
  cases hfind : find_product db sid bid with
  | some existing =>
    simp only [add_bike_product, hfind]
    refine ⟨?_, ?_, ?_⟩
    · refine ⟨{ existing with colors := pySortedSet (existing.colors ++ colors) },
        updateFirst_find_mem hfind, ?_, ?_⟩
      · have := (find_product_some hfind).2
        simpa [prodKey] using this
      · intro c hc
        rw [mem_pySortedSet, List.mem_append]
        exact Or.inr hc
    · refine ⟨hInv.1, hInv.2.1, hInv.2.2.1, hInv.2.2.2.1, ?_, ?_⟩
      · exact updateFirst_pairwise (fun x => rfl) hInv.2.2.2.2.1
      · intro p hp
        rcases updateFirst_mem hp with hmem | ⟨x, _, _, rfl⟩
        · exact hInv.2.2.2.2.2 p hmem
        · exact ⟨pySortedSet_sorted _, pySortedSet_nodup _⟩
    · refine ⟨fun x hx => hx, fun x hx => hx, fun s hs => hs,
        fun bk hbk => hbk, ?_⟩
      intro p hp
      rcases updateFirst_mem_cases (p := fun q =>
          decide (q.geometry_spec_id = sid ∧ q.build_kit_id = bid))
          (f := fun q =>
            { q with colors := pySortedSet (existing.colors ++ colors) }) hp with
        hmem | ⟨hfind', hmem⟩
      · exact ⟨p, hmem, rfl, rfl, rfl, fun c hc => hc⟩
      · have hpe : p = existing := by
          have hfp : find_product db sid bid = some p := hfind'
          rw [hfind] at hfp
          exact (Option.some_inj.mp hfp).symm
        refine ⟨{ p with colors := pySortedSet (existing.colors ++ colors) },
          hmem, rfl, rfl, rfl, ?_⟩
        intro c hc
        rw [mem_pySortedSet, List.mem_append, hpe] at *
        exact Or.inl hc
  | none =>
    simp only [add_bike_product, hfind]
    refine ⟨?_, ?_, ?_⟩
    · refine ⟨_, List.mem_append_right _ (List.mem_singleton_self _), rfl, ?_⟩
      intro c hc
      rw [mem_pySortedSet]
      exact hc
    · refine ⟨hInv.1, hInv.2.1, hInv.2.2.1, hInv.2.2.2.1, ?_, ?_⟩
      · rw [List.pairwise_append]
        refine ⟨hInv.2.2.2.2.1, List.pairwise_singleton _ _, ?_⟩
        intro x hx z hz
        rw [List.mem_singleton.mp hz]
        have hpx := find?_none_forall hfind x hx
        simp only [decide_eq_false_iff_not, not_and] at hpx
        simp only [prodKey, ne_eq, Prod.mk.injEq, not_and]
        intro h1 h2
        exact hpx h1 h2
      · intro p hp
        rcases List.mem_append.mp hp with hmem | hnew
        · exact hInv.2.2.2.2.2 p hmem
        · rw [List.mem_singleton.mp hnew]
          exact ⟨pySortedSet_sorted _, pySortedSet_nodup _⟩
    · refine ⟨fun x hx => hx, fun x hx => hx, fun s hs => hs,
        fun bk hbk => hbk, ?_⟩
      intro p hp
      exact ⟨p, List.mem_append_left _ hp, rfl, rfl, rfl, fun c hc => hc⟩

theorem add_bike_product_noop {db : DB} {sku : String} {colors : List String}
    {sid bid : ℕ} {src : Option String} {added : List String} {P : ProductRow}
    (hInv : Inv db) (hfind : find_product db sid bid = some P)
    (hsub : ∀ c ∈ colors, c ∈ P.colors) :
    add_bike_product db sku colors sid bid src added = (P, db, added) := by
  have hPc := hInv.2.2.2.2.2 P (List.mem_of_find?_eq_some hfind)
  have hcol : pySortedSet (P.colors ++ colors) = P.colors := by
    have hmem : ∀ c, c ∈ P.colors ++ colors ↔ c ∈ P.colors := by
      intro c
      rw [List.mem_append]
      exact ⟨fun h => h.elim id (hsub c), Or.inl⟩
    calc pySortedSet (P.colors ++ colors)
        = pySortedSet P.colors := pySortedSet_eq_of_mem_iff hmem
      _ = P.colors := pySortedSet_eq_self hPc.1 hPc.2
  simp only [add_bike_product, hfind, hcol]
  have hupd : updateFirst
      (fun p => decide (p.geometry_spec_id = sid ∧ p.build_kit_id = bid))
      (fun p => { p with colors := P.colors }) db.products = db.products :=
    updateFirst_eq_self hfind rfl
  rw [hupd]

/-! ### Absorption: a record whose whole entity graph is already present -/

/-- One size of a record is absorbed in `db`: whenever its geometry payload
builds, the corresponding spec row exists under the definition and a product
for `(spec, build kit)` exists whose colors include the record's. -/
def AbsorbedSize (db : DB) (did bid : ℕ) (colors : List String)
    (specs : List (String × List SpecValue)) (e : ℕ × String) : Prop :=
  ∀ payload, build_geometry_payload specs e.1 = some payload →
    ∃ S ∈ db.specs,
      specKey S = (did, normalize_label (normalize_label e.2))
      ∧ ∃ P ∈ db.products, prodKey P = (S.id, bid) ∧ ∀ c ∈ colors, c ∈ P.colors

theorem absorbedSize_mono {db db' : DB} {did bid : ℕ} {colors : List String}
    {specs : List (String × List SpecValue)} {e : ℕ × String}
    (hle : DBLe db db') (h : AbsorbedSize db did bid colors specs e) :
    AbsorbedSize db' did bid colors specs e := by
  intro payload hpay
  obtain ⟨S, hS, hSk, P, hP, hPk, hPc⟩ := h payload hpay
  obtain ⟨P', hP', _, hPs, hPb, hPcol⟩ := hle.2.2.2.2 P hP
  refine ⟨S, hle.2.2.1 S hS, hSk, P', hP', ?_, fun c hc => hPcol c (hPc c hc)⟩
  simp only [prodKey, Prod.mk.injEq] at hPk ⊢
  exact ⟨hPs.trans hPk.1, hPb.trans hPk.2⟩

/-- A whole canonical record is absorbed in `db`. -/
def Absorbed (db : DB) (r : CanonicalRecord) : Prop :=
  ∃ F ∈ db.families, famKey F = ("Kross", recModel r)
  ∧ ∃ D ∈ db.defRows, defKey D = (F.id, recDefName r, r.material)
  ∧ ∃ B ∈ db.buildKits, bkKey B = bkDataKey r.build_kit
  ∧ ∀ e ∈ r.sizes.enum, AbsorbedSize db D.id B.id (recColors r) r.specs e

theorem absorbed_mono {db db' : DB} {r : CanonicalRecord} (hle : DBLe db db')
    (h : Absorbed db r) : Absorbed db' r := by
  obtain ⟨F, hF, hFk, D, hD, hDk, B, hB, hBk, hsz⟩ := h
  exact ⟨F, hle.1 F hF, hFk, D, hle.2.1 D hD, hDk, B, hle.2.2.2.1 B hB, hBk,
    fun e he => absorbedSize_mono hle (hsz e he)⟩

/-! ### The per-size loop -/

theorem sizeStep_spec (specs : List (String × List SpecValue))
    (colors : List String) (did bid : ℕ) (bkName mn ys : String)
    (src : Option String) (st : DB × List String) (e : ℕ × String)
    (hInv : Inv st.1) :
    Inv (sizeStep specs colors did bid bkName mn ys src st e).1
    ∧ DBLe st.1 (sizeStep specs colors did bid bkName mn ys src st e).1
    ∧ AbsorbedSize (sizeStep specs colors did bid bkName mn ys src st e).1
        did bid colors specs e := by
  cases hp : build_geometry_payload specs e.1 with
  | none =>
    simp only [sizeStep, hp]
    exact ⟨hInv, dbLe_refl _,
      fun payload hpay => absurd (hp.symm.trans hpay) (by simp)⟩
  | some payload =>
    simp only [sizeStep, hp]
    obtain ⟨hSmem, hSkey, hInv1, hle1⟩ :=
      get_or_create_geometry_spec_spec st.1 did (normalize_label e.2) payload hInv
    obtain ⟨hP, hInv2, hle2⟩ :=
      add_bike_product_spec
        (get_or_create_geometry_spec st.1 did (normalize_label e.2) payload).2
        (mkSku mn ys bkName (normalize_label e.2)) colors
        (get_or_create_geometry_spec st.1 did (normalize_label e.2) payload).1.id
        bid src st.2 hInv1
    refine ⟨hInv2, dbLe_trans hle1 hle2, ?_⟩
    intro payload' hpay'
    obtain ⟨P, hPmem, hPkey, hPcol⟩ := hP
    exact ⟨(get_or_create_geometry_spec st.1 did (normalize_label e.2) payload).1,
      hle2.2.2.1 _ hSmem, by rw [hSkey], P, hPmem, hPkey, hPcol⟩

theorem sizeStep_noop (specs : List (String × List SpecValue))
    (colors : List String) (did bid : ℕ) (bkName mn ys : String)
    (src : Option String) (st : DB × List String) (e : ℕ × String)
    (hInv : Inv st.1)
    (habs : AbsorbedSize st.1 did bid colors specs e) :
    sizeStep specs colors did bid bkName mn ys src st e = st := by
  cases hp : build_geometry_payload specs e.1 with
  | none => simp only [sizeStep, hp]
  | some payload =>
    obtain ⟨S, hS, hSk, P, hP, hPk, hPc⟩ := habs payload hp
    have hfindS : find_geometry_spec st.1 did
        (normalize_label (normalize_label e.2)) = some S :=
      find_geometry_spec_of_key hInv hS hSk
    have hgs : get_or_create_geometry_spec st.1 did (normalize_label e.2)
        payload = (S, st.1) :=
      geometry_spec_first_write_wins st.1 did (normalize_label e.2) payload S
        hfindS
    have hfindP : find_product st.1 S.id bid = some P :=
      find_product_of_key hInv hP hPk
    have hab : add_bike_product st.1 (mkSku mn ys bkName (normalize_label e.2))
        colors S.id bid src st.2 = (P, st.1, st.2) :=
      add_bike_product_noop hInv hfindP hPc
    simp only [sizeStep, hp, hgs, hab]

theorem sizesFold_spec (specs : List (String × List SpecValue))
    (colors : List String) (did bid : ℕ) (bkName mn ys : String)
    (src : Option String) :
    ∀ (l : List (ℕ × String)) (st : DB × List String), Inv st.1 →
      Inv ((l.foldl (sizeStep specs colors did bid bkName mn ys src) st)).1
      ∧ DBLe st.1 ((l.foldl (sizeStep specs colors did bid bkName mn ys src) st)).1
      ∧ ∀ e ∈ l, AbsorbedSize
          ((l.foldl (sizeStep specs colors did bid bkName mn ys src) st)).1
          did bid colors specs e := by
  intro l
  induction l with
  | nil =>
    intro st hInv
    exact ⟨hInv, dbLe_refl _, fun e he => absurd he (List.not_mem_nil e)⟩
  | cons e es ih =>
    intro st hInv
    obtain ⟨hInv1, hle1, habs1⟩ :=
      sizeStep_spec specs colors did bid bkName mn ys src st e hInv
    obtain ⟨hInv2, hle2, habs2⟩ :=
      ih (sizeStep specs colors did bid bkName mn ys src st e) hInv1
    refine ⟨hInv2, dbLe_trans hle1 hle2, ?_⟩
    intro e' he'
    rcases List.mem_cons.mp he' with rfl | he'
    · exact absorbedSize_mono hle2 habs1
    · exact habs2 e' he'

theorem sizesFold_noop (specs : List (String × List SpecValue))
    (colors : List String) (did bid : ℕ) (bkName mn ys : String)
    (src : Option String) :
    ∀ (l : List (ℕ × String)) (st : DB × List String), Inv st.1 →
      (∀ e ∈ l, AbsorbedSize st.1 did bid colors specs e) →
      l.foldl (sizeStep specs colors did bid bkName mn ys src) st = st := by
  intro l
  induction l with
  | nil => intro st _ _; rfl
  | cons e es ih =>
    intro st hInv habs
    have hstep := sizeStep_noop specs colors did bid bkName mn ys src st e hInv
      (habs e (List.mem_cons_self e es))
    show es.foldl _ (sizeStep specs colors did bid bkName mn ys src st e) = st
    rw [hstep]
    exact ih st hInv (fun e' he' => habs e' (List.mem_cons_of_mem e he'))

/-! ### One record -/

theorem processRecord_spec (st : DB × List String) (r : CanonicalRecord)
    (hInv : Inv st.1) :
    Inv (processRecord st r).1
    ∧ DBLe st.1 (processRecord st r).1
    ∧ Absorbed (processRecord st r).1 r := by
  obtain ⟨hF, hFk, hInv1, hle1⟩ :=
    get_or_create_family_spec st.1 "Kross" (recModel r) (recCategory r) hInv
  obtain ⟨hD, hDk, hInv2, hle2⟩ :=
    get_or_create_definition_spec
      (get_or_create_family st.1 "Kross" (recModel r) (recCategory r)).2
      (get_or_create_family st.1 "Kross" (recModel r) (recCategory r)).1.id
      (recDefName r) r.material r.model_year hInv1
  obtain ⟨hB, hBk, hInv3, hle3⟩ :=
    get_or_create_build_kit_spec
      (get_or_create_definition
        (get_or_create_family st.1 "Kross" (recModel r) (recCategory r)).2
        (get_or_create_family st.1 "Kross" (recModel r) (recCategory r)).1.id
        (recDefName r) r.material r.model_year).2
      r.build_kit hInv2
  obtain ⟨hInv4, hle4, habs⟩ := sizesFold_spec r.specs (recColors r) _ _ _ _ _
    r.source_url r.sizes.enum (_, st.2) hInv3
  refine ⟨hInv4, dbLe_trans hle1 (dbLe_trans hle2 (dbLe_trans hle3 hle4)), ?_⟩
  refine ⟨_, hle4.1 _ (hle3.1 _ (hle2.1 _ hF)), hFk, _,
    hle4.2.1 _ (hle3.2.1 _ hD), hDk, _, hle4.2.2.2.1 _ hB, hBk, habs⟩

theorem processRecord_noop (db : DB) (a : List String) (r : CanonicalRecord)
    (hInv : Inv db) (habs : Absorbed db r) :
    processRecord (db, a) r = (db, a) := by
  obtain ⟨F, hF, hFk, D, hD, hDk, B, hB, hBk, hsz⟩ := habs
  have h1 : get_or_create_family db "Kross" (recModel r) (recCategory r)
      = (F, db) :=
    get_or_create_family_found (find_family_of_key hInv hF hFk)
  have h2 : get_or_create_definition db F.id (recDefName r) r.material
      r.model_year = (D, db) :=
    get_or_create_definition_found (find_definition_of_key hInv hD hDk)
  have h3 : get_or_create_build_kit db r.build_kit = (B, db) :=
    get_or_create_build_kit_found (find_build_kit_of_key hInv hB hBk)
  have h4 := sizesFold_noop r.specs (recColors r) D.id B.id B.name (recModel r)
    (recYearStr r) r.source_url r.sizes.enum (db, a) hInv hsz
  simp only [processRecord, h1, h2, h3]
  exact h4

/-! ### Whole runs -/

theorem runFold_spec :
    ∀ (rs : List CanonicalRecord) (st : DB × List String), Inv st.1 →
      Inv ((rs.foldl processRecord st)).1
      ∧ DBLe st.1 ((rs.foldl processRecord st)).1
      ∧ ∀ r ∈ rs, Absorbed ((rs.foldl processRecord st)).1 r := by
  intro rs
  induction rs with
  | nil =>
    intro st hInv
    exact ⟨hInv, dbLe_refl _, fun r hr => absurd hr (List.not_mem_nil r)⟩
  | cons r rest ih =>
    intro st hInv
    obtain ⟨hInv1, hle1, habs1⟩ := processRecord_spec st r hInv
    obtain ⟨hInv2, hle2, habs2⟩ := ih (processRecord st r) hInv1
    refine ⟨hInv2, dbLe_trans hle1 hle2, ?_⟩
    intro r' hr'
    rcases List.mem_cons.mp hr' with rfl | hr'
    · exact absorbed_mono hle2 habs1
    · exact habs2 r' hr'

theorem runFold_noop :
    ∀ (rs : List CanonicalRecord) (st : DB × List String), Inv st.1 →
      (∀ r ∈ rs, Absorbed st.1 r) → rs.foldl processRecord st = st := by
  intro rs
  induction rs with
  | nil => intro st _ _; rfl
  | cons r rest ih =>
    intro st hInv habs
    have hstep : processRecord st r = st :=
      processRecord_noop st.1 st.2 r hInv (habs r (List.mem_cons_self r rest))
    show rest.foldl processRecord (processRecord st r) = st
    rw [hstep]
    exact ih st hInv (fun r' hr' => habs r' (List.mem_cons_of_mem r hr'))

/-- C1: the Populator is idempotent — running it twice in succession over the
same canonical record set, each run starting with a fresh `added_skus` set,
yields exactly the database state of a single run: the same rows (hence the
same row counts and entity ids) in every table, with nothing created or
changed by the second run. -/
theorem populate_idempotent (rs : List CanonicalRecord) :
    runPopulate (runPopulate emptyDB rs) rs = runPopulate emptyDB rs := by
  obtain ⟨hInv1, _, habs⟩ := runFold_spec rs (emptyDB, []) inv_emptyDB
  unfold runPopulate
  rw [runFold_noop rs ((rs.foldl processRecord (emptyDB, [])).1, []) hInv1
    (fun r hr => habs r hr)]

end VeloGraph
